import Mathlib

/-!
Verification of the what-to-pack multi-agent pipeline.

This file gives a shallow embedding of the repository's response-parsing
layer (`src/what_to_pack/json_utils.py`), the three stage handlers
(`src/what_to_pack/main.py`), the configuration check
(`src/what_to_pack/config.py`) and the weather-service lifecycle
(`src/what_to_pack/weather_service.py`), and proves or refutes the frozen
claims about them.

Modelling conventions:
* Python `str` values are modelled as `String` / `List Char`.
* Python objects produced by `json.loads` are modelled by the inductive
  `JVal`; JSON numbers are kept as their exact decimal literal (`JNum`),
  which is faithful here because the program never performs arithmetic on
  parsed numbers.  Python's non-standard acceptance of `NaN` / `Infinity`
  and of lone surrogate escapes is outside the model.
* Python `dict` is modelled by the association list `JObj` with
  Python-dict insert semantics (replace in place, append when fresh).
* Warnings produced by `safe_load_validated` are modelled by the
  inductive `JWarning`, abstracting the exact message strings.
-/

/-- Decimal digit test, as used by the JSON number grammar. -/
def isDigitCh (c : Char) : Bool :=
  48 ≤ c.toNat && c.toNat ≤ 57

/-- Hexadecimal digit value (JSON accepts both cases in escapes). -/
def hexVal (c : Char) : Option Nat :=
  if 48 ≤ c.toNat ∧ c.toNat ≤ 57 then some (c.toNat - 48)
  else if 97 ≤ c.toNat ∧ c.toNat ≤ 102 then some (c.toNat - 87)
  else if 65 ≤ c.toNat ∧ c.toNat ≤ 70 then some (c.toNat - 55)
  else none

/-- JSON whitespace, exactly the four characters skipped by `json.loads`. -/
def isJsonWs (c : Char) : Bool :=
  c = ' ' || c = '\t' || c = '\n' || c = '\r'

/-- Skip leading JSON whitespace. -/
def skipWs (s : List Char) : List Char :=
  s.dropWhile isJsonWs

/-- Whitespace stripped by Python `str.strip()`; models the ASCII and
Latin-1 whitespace characters (the exotic Unicode space classes never
arise in the inputs considered here). -/
def pyIsSpace (c : Char) : Bool :=
  (9 ≤ c.toNat && c.toNat ≤ 13) || c.toNat = 32 ||
  (28 ≤ c.toNat && c.toNat ≤ 31) || c.toNat = 133 || c.toNat = 160

/-- Model of Python `str.strip()`: drop `pyIsSpace` characters from both
ends. -/
def pyStrip (s : List Char) : List Char :=
  (s.dropWhile pyIsSpace).rdropWhile pyIsSpace

/-- Exponent part of a JSON number literal: the case of the `e`, the
explicit sign character if present (`some true` = `-`, `some false` =
`+`), and the digit characters. -/
structure JExp where
  upper : Bool
  sign : Option Bool
  digits : List Char
deriving DecidableEq, Repr

/-- A JSON number kept as its exact decimal literal: sign, integer-part
digits, fractional digits (`[]` when there is no fractional part), and
optional exponent.  `json.loads` converts such literals to Python
`int`/`float`; keeping the literal is faithful because the program never
computes with parsed numbers, only stores and re-formats them. -/
structure JNum where
  neg : Bool
  intDigits : List Char
  fracDigits : List Char
  expPart : Option JExp
deriving DecidableEq, Repr

/-- Build an integer `JNum` literal from a natural number (helper for
writing concrete values such as the duration default `7`). -/
def natNum (n : Nat) : JNum :=
  ⟨false, Nat.toDigits 10 n, [], none⟩

mutual

/-- A Python value produced by `json.loads`: `None`, `bool`, number,
`str`, `list`, `dict`. -/
inductive JVal where
  | null : JVal
  | bool (b : Bool) : JVal
  | num (n : JNum) : JVal
  | str (s : String) : JVal
  | arr (items : JArr) : JVal
  | obj (members : JObj) : JVal
deriving DecidableEq, Repr

/-- A Python list of `JVal`s. -/
inductive JArr where
  | nil : JArr
  | cons (v : JVal) (tl : JArr) : JArr
deriving DecidableEq, Repr

/-- A Python dict from string keys to `JVal`s, as an insertion-ordered
association list. -/
inductive JObj where
  | nil : JObj
  | cons (k : String) (v : JVal) (tl : JObj) : JObj
deriving DecidableEq, Repr

end

/-- Dict lookup (`d[k]` / successful `d.get(k)`). -/
def JObj.get? : JObj → String → Option JVal
  | .nil, _ => none
  | .cons k v tl, key => if k = key then some v else tl.get? key

/-- Dict lookup with default, Python `d.get(k, dflt)`. -/
def JObj.getD (o : JObj) (key : String) (dflt : JVal) : JVal :=
  (o.get? key).getD dflt

/-- Python `k in d`. -/
def JObj.hasKey (o : JObj) (key : String) : Bool :=
  (o.get? key).isSome

/-- The keys of a dict in insertion order. -/
def JObj.keys : JObj → List String
  | .nil => []
  | .cons k _ tl => k :: tl.keys

/-- Python dict insertion: replace the value in place when the key is
already present, append otherwise. -/
def JObj.insert : JObj → String → JVal → JObj
  | .nil, key, v => .cons key v .nil
  | .cons k w tl, key, v =>
    if k = key then .cons k v tl else .cons k w (tl.insert key v)

/-- Append two dicts as association lists (no de-duplication; used to
state frame properties, not as a Python operation). -/
def JObj.append : JObj → JObj → JObj
  | .nil, o => o
  | .cons k v tl, o => .cons k v (tl.append o)

/-- Build a dict from a pair list by sequential insertion, the way
`json.loads` materialises an object (later duplicates overwrite the
value at the first occurrence's position). -/
def pairsToObj (l : List (String × JVal)) : JObj :=
  l.foldl (fun acc p => acc.insert p.1 p.2) .nil

/-- Dict built from a pair list assuming fresh keys (helper for writing
concrete objects in statements). -/
def objOf : List (String × JVal) → JObj
  | [] => .nil
  | (k, v) :: tl => .cons k v (objOf tl)

/-- Number whose mathematical value is zero (`0`, `0.0`, `-0.00`, ...);
such numbers are falsy in Python. -/
def JNum.isZero (n : JNum) : Bool :=
  n.intDigits.all (· = '0') && n.fracDigits.all (· = '0')

/-- Python truthiness of a parsed value (`if x:`). -/
def pyTruthy : JVal → Bool
  | .null => false
  | .bool b => b
  | .num n => !n.isZero
  | .str s => !s.isEmpty
  | .arr .nil => false
  | .arr (.cons _ _) => true
  | .obj .nil => false
  | .obj (.cons _ _ _) => true

/-- Python `isinstance(x, dict)`. -/
def isDict : JVal → Bool
  | .obj _ => true
  | _ => false

/-- Python `isinstance(x, (int, float))`.  Note that Python `bool` is a
subtype of `int`, so JSON `true`/`false` satisfy this check. -/
def isIntOrFloat : JVal → Bool
  | .num _ => true
  | .bool _ => true
  | _ => false

/-- The backtick character. -/
def tick : Char := Char.ofNat 96

/-- Left and right curly bracket characters. -/
def lbrace : Char := Char.ofNat 123

/-- Right curly bracket character. -/
def rbrace : Char := Char.ofNat 125

/-- Whether the list starts with a triple backtick. -/
def startsTicks : List Char → Bool
  | c1 :: c2 :: c3 :: _ => c1 = tick && c2 = tick && c3 = tick
  | _ => false

/-- Whether the first four characters case-fold to the tag `json`
(models `.lower().startswith("json")` and the `IGNORECASE` regex flag). -/
def startsJsonCI : List Char → Bool
  | a :: b :: c :: d :: _ =>
    a.toLower = 'j' && b.toLower = 's' && c.toLower = 'o' && d.toLower = 'n'
  | _ => false

/-- Characters before the first triple backtick, or `none` when there is
no triple backtick; models the lazy group followed by the closing fence
in the pattern `CODE_FENCE_PATTERN`. -/
def splitAtFence : List Char → Option (List Char)
  | [] => none
  | c :: rest =>
    if startsTicks (c :: rest) then some []
    else (splitAtFence rest).map (c :: ·)

/-- Attempt the fence pattern anchored at the head of the list: a triple
backtick, an optional case-insensitive `json` tag, then the shortest run
of characters up to a closing triple backtick.  Trying the tag first is
faithful to the regex engine's greedy handling of the optional group; a
failed close after consuming the tag cannot be rescued by backtracking,
because the four tag letters contain no backtick. -/
def fenceMatchAt (s : List Char) : Option (List Char) :=
  if startsTicks s then
    let r := s.drop 3
    let r2 := if startsJsonCI r then r.drop 4 else r
    splitAtFence r2
  else none

/-- Leftmost match of the fence pattern, models
`CODE_FENCE_PATTERN.search` returning the captured group. -/
def fenceSearch : List Char → Option (List Char)
  | [] => none
  | c :: rest =>
    match fenceMatchAt (c :: rest) with
    | some g => some g
    | none => fenceSearch rest

/-- Index of the last occurrence of `c`, models Python `str.rfind`
(returning `none` instead of `-1`). -/
def lastIdx (c : Char) (l : List Char) : Option Nat :=
  match l.reverse.findIdx? (· = c) with
  | some j => some (l.length - 1 - j)
  | none => none

/-- Embeds `extract_json_text` from `json_utils.py`: strip, take the
fenced block's inner text when present (dropping a leading `json` tag),
otherwise slice between the first left and last right curly bracket when
the text is not already bracket-delimited, and strip the result. -/
def extract_json_text_core (raw0 : List Char) : List Char :=
  let raw1 := pyStrip raw0
  let raw2 :=
    match fenceSearch raw1 with
    | some g =>
      let inner := pyStrip g
      if startsJsonCI inner then pyStrip (inner.drop 4) else inner
    | none => raw1
  let raw3 :=
    if raw2.head? = some lbrace ∧ raw2.getLast? = some rbrace then raw2
    else
      match raw2.findIdx? (· = lbrace), lastIdx rbrace raw2 with
      | some s, some e => if s < e then (raw2.drop s).take (e + 1 - s) else raw2
      | _, _ => raw2
  pyStrip raw3

/-- String-level wrapper for `extract_json_text`. -/
def extract_json_text (raw : String) : String :=
  ⟨extract_json_text_core raw.data⟩

/-- Short escape sequences accepted inside JSON strings. -/
def shortEsc (c : Char) : Option Char :=
  if c = '"' then some '"'
  else if c = '\\' then some '\\'
  else if c = '/' then some '/'
  else if c = 'b' then some (Char.ofNat 8)
  else if c = 'f' then some (Char.ofNat 12)
  else if c = 'n' then some '\n'
  else if c = 'r' then some '\r'
  else if c = 't' then some '\t'
  else none

/-- Value of a four-digit hexadecimal escape. -/
def hex4Val (a b c d : Char) : Option Nat :=
  match hexVal a, hexVal b, hexVal c, hexVal d with
  | some x, some y, some z, some w => some (x * 4096 + y * 256 + z * 16 + w)
  | _, _, _, _ => none

mutual

/-- Parse the body of a JSON string after the opening quote, returning
the decoded characters and the remainder after the closing quote.
Surrogate-pair escapes are recombined; a lone surrogate escape (which
CPython tolerates, producing a string no `Char` can represent) is
modelled as a failure. -/
def parseStrBody : List Char → Option (List Char × List Char)
  | [] => none
  | c :: rest =>
    if c = '"' then some ([], rest)
    else if c = '\\' then parseEsc rest
    else if c.toNat < 32 then none
    else (parseStrBody rest).map (fun p => (c :: p.1, p.2))

/-- Parse one escape sequence (the backslash already consumed) and the
rest of the string body. -/
def parseEsc : List Char → Option (List Char × List Char)
  | [] => none
  | e :: r =>
    if e = 'u' then parseUEsc r
    else
      match shortEsc e with
      | some c => (parseStrBody r).map (fun p => (c :: p.1, p.2))
      | none => none

/-- Parse the four hex digits of a `\uXXXX` escape; a high surrogate
must be followed by a low-surrogate escape. -/
def parseUEsc : List Char → Option (List Char × List Char)
  | a :: b :: c :: d :: r2 =>
    match hex4Val a b c d with
    | none => none
    | some h =>
      if 55296 ≤ h ∧ h < 56320 then parseLowEsc h r2
      else if 56320 ≤ h ∧ h < 57344 then none
      else (parseStrBody r2).map (fun p => (Char.ofNat h :: p.1, p.2))
  | _ => none

/-- Parse the low-surrogate escape following a high surrogate `h` and
recombine the pair into one character. -/
def parseLowEsc : Nat → List Char → Option (List Char × List Char)
  | h, '\\' :: 'u' :: a2 :: b2 :: c2 :: d2 :: r3 =>
    match hex4Val a2 b2 c2 d2 with
    | some l =>
      if 56320 ≤ l ∧ l < 57344 then
        (parseStrBody r3).map
          (fun p => (Char.ofNat (65536 + (h - 55296) * 1024 + (l - 56320)) :: p.1, p.2))
      else none
    | none => none
  | _, _ => none

end

/-- Longest digit run at the head of the list. -/
def takeDigits (s : List Char) : List Char × List Char :=
  s.span isDigitCh

/-- Integer part of a JSON number: a single `0`, or a nonzero digit
followed by any digits. -/
def parseIntDigits : List Char → Option (List Char × List Char)
  | [] => none
  | c :: r =>
    if c = '0' then some (['0'], r)
    else if isDigitCh c then
      let p := takeDigits r
      some (c :: p.1, p.2)
    else none

/-- Optional fractional part, a dot followed by at least one digit; a
dot with no digit is left unconsumed. -/
def parseFrac (s : List Char) : List Char × List Char :=
  match s with
  | c :: r =>
    if c = '.' then
      let p := takeDigits r
      if p.1.isEmpty then ([], c :: r) else (p.1, p.2)
    else ([], c :: r)
  | [] => ([], [])

/-- Optional exponent part, `e`/`E`, optional sign, at least one digit;
a bare `e` is left unconsumed. -/
def parseExpPart (s : List Char) : Option JExp × List Char :=
  match s with
  | e :: r =>
    if e = 'e' ∨ e = 'E' then
      let sp : Option Bool × List Char :=
        match r with
        | c :: x =>
          if c = '-' then (some true, x)
          else if c = '+' then (some false, x)
          else (none, c :: x)
        | [] => (none, [])
      let p := takeDigits sp.2
      if p.1.isEmpty then (none, e :: r) else (some ⟨e = 'E', sp.1, p.1⟩, p.2)
    else (none, e :: r)
  | [] => (none, [])

/-- Parse a JSON number literal, keeping its exact digits. -/
def parseNum (s : List Char) : Option (JNum × List Char) :=
  let sp : Bool × List Char :=
    match s with
    | c :: r => if c = '-' then (true, r) else (false, c :: r)
    | [] => (false, [])
  match parseIntDigits sp.2 with
  | none => none
  | some (ids, r1) =>
    let fp := parseFrac r1
    let ep := parseExpPart fp.2
    some (⟨sp.1, ids, fp.1, ep.1⟩, ep.2)

mutual

/-- Fueled recursive-descent parser for one JSON value, modelling the
grammar accepted by `json.loads` (each nested call consumes at least one
character, so fuel `length + 1` never runs out). -/
def parseVal : Nat → List Char → Option (JVal × List Char)
  | 0, _ => none
  | fuel + 1, s =>
    match s with
    | [] => none
    | c :: rest =>
      if c = '"' then (parseStrBody rest).map (fun p => (JVal.str ⟨p.1⟩, p.2))
      else if c = lbrace then
        match skipWs rest with
        | c2 :: r =>
          if c2 = rbrace then some (JVal.obj .nil, r)
          else if c2 = '"' then
            match parseStrBody r with
            | none => none
            | some (kcs, r2) =>
              match skipWs r2 with
              | ':' :: r3 =>
                match parseVal fuel (skipWs r3) with
                | none => none
                | some (v, r4) =>
                  match parseObjRest fuel r4 with
                  | none => none
                  | some (pairs, r5) => some (JVal.obj (pairsToObj ((⟨kcs⟩, v) :: pairs)), r5)
              | _ => none
          else none
        | [] => none
      else if c = '[' then
        match skipWs rest with
        | c2 :: r =>
          if c2 = ']' then some (JVal.arr .nil, r)
          else
            match parseVal fuel (skipWs rest) with
            | none => none
            | some (v, r2) =>
              match parseArrRest fuel r2 with
              | none => none
              | some (tl, r3) => some (JVal.arr (.cons v tl), r3)
        | [] => none
      else if c = 't' then
        match rest with
        | 'r' :: 'u' :: 'e' :: r => some (JVal.bool true, r)
        | _ => none
      else if c = 'f' then
        match rest with
        | 'a' :: 'l' :: 's' :: 'e' :: r => some (JVal.bool false, r)
        | _ => none
      else if c = 'n' then
        match rest with
        | 'u' :: 'l' :: 'l' :: r => some (JVal.null, r)
        | _ => none
      else if c = '-' || isDigitCh c then
        (parseNum s).map (fun p => (JVal.num p.1, p.2))
      else none

/-- Remaining items of a JSON array after the first value. -/
def parseArrRest : Nat → List Char → Option (JArr × List Char)
  | 0, _ => none
  | fuel + 1, s =>
    match skipWs s with
    | c :: r =>
      if c = ',' then
        match parseVal fuel (skipWs r) with
        | none => none
        | some (v, r2) =>
          match parseArrRest fuel r2 with
          | none => none
          | some (tl, r3) => some (.cons v tl, r3)
      else if c = ']' then some (.nil, r)
      else none
    | [] => none

/-- Remaining members of a JSON object after the first pair, collected
as a list (the caller materialises the dict by sequential insertion). -/
def parseObjRest : Nat → List Char → Option (List (String × JVal) × List Char)
  | 0, _ => none
  | fuel + 1, s =>
    match skipWs s with
    | c :: r =>
      if c = ',' then
        match skipWs r with
        | c2 :: r2 =>
          if c2 = '"' then
            match parseStrBody r2 with
            | none => none
            | some (kcs, r3) =>
              match skipWs r3 with
              | ':' :: r4 =>
                match parseVal fuel (skipWs r4) with
                | none => none
                | some (v, r5) =>
                  match parseObjRest fuel r5 with
                  | none => none
                  | some (pairs, r6) => some ((⟨kcs⟩, v) :: pairs, r6)
              | _ => none
          else none
        | [] => none
      else if c = rbrace then some ([], r)
      else none
    | [] => none

end

/-- Embeds `try_parse_json` from `json_utils.py`: `json.loads` on the
candidate text, returning the parsed value on success and `none` on any
parse error (the descriptive error string is abstracted away). -/
def try_parse_json (s : String) : Option JVal :=
  let cs := skipWs s.data
  match parseVal (cs.length + 1) cs with
  | some (v, rest) => if skipWs rest = [] then some v else none
  | none => none

/-- A warning emitted by `safe_load_validated`, abstracting the message
text: either a JSON parse error or a missing-keys report. -/
inductive JWarning where
  | parseErr : JWarning
  | missingKeys (ks : List String) : JWarning
deriving DecidableEq, Repr

/-- Embeds `validate_keys` from `json_utils.py`: non-dict values are
invalid with every required key missing; for dicts, the missing list
keeps the order of `required`. -/
def validate_keys (v : JVal) (required : List String) : Bool × List String :=
  match v with
  | .obj o =>
    let missing := required.filter (fun k => !o.hasKey k)
    (missing.isEmpty, missing)
  | _ => (false, required)

/-- Embeds `safe_load_validated` from `json_utils.py`: extract, parse,
validate; an empty dict plus one warning on parse failure, the parsed
value plus one missing-keys warning when validation fails. -/
def safe_load_validated (raw : String) (required : List String) : JVal × List JWarning :=
  let t := extract_json_text raw
  match try_parse_json t with
  | none => (JVal.obj .nil, [.parseErr])
  | some d =>
    let vk := validate_keys d required
    (d, if vk.1 then [] else [.missingKeys vk.2])

/-- Lower-case hexadecimal digit character, as produced by Python's
`\uXXXX` escaping in `json.dumps`. -/
def toHexDigit (n : Nat) : Char :=
  Char.ofNat (if n < 10 then 48 + n else 87 + n)

/-- Four-digit lower-case hexadecimal rendering of `n < 65536`. -/
def hex4 (n : Nat) : List Char :=
  [toHexDigit (n / 4096 % 16), toHexDigit (n / 256 % 16),
   toHexDigit (n / 16 % 16), toHexDigit (n % 16)]

/-- Escape one character the way `json.dumps` (default `ensure_ascii`)
does: short escapes for the named characters, printable ASCII verbatim,
`\uXXXX` for everything else, surrogate pairs above the BMP. -/
def escChar (c : Char) : List Char :=
  if c = '"' then ['\\', '"']
  else if c = '\\' then ['\\', '\\']
  else if c = '\n' then ['\\', 'n']
  else if c = '\r' then ['\\', 'r']
  else if c = '\t' then ['\\', 't']
  else if c.toNat = 8 then ['\\', 'b']
  else if c.toNat = 12 then ['\\', 'f']
  else if 32 ≤ c.toNat ∧ c.toNat ≤ 126 then [c]
  else if c.toNat < 65536 then '\\' :: 'u' :: hex4 c.toNat
  else
    ('\\' :: 'u' :: hex4 (55296 + (c.toNat - 65536) / 1024)) ++
      ('\\' :: 'u' :: hex4 (56320 + (c.toNat - 65536) % 1024))

/-- Escape a whole string body. -/
def escStr (s : List Char) : List Char :=
  (s.map escChar).flatten

/-- Serialise a string with its quotes. -/
def serStr (s : String) : List Char :=
  '"' :: (escStr s.data ++ ['"'])

/-- Serialise the exponent part of a number literal. -/
def serExp : Option JExp → List Char
  | none => []
  | some e =>
    (if e.upper then 'E' else 'e') ::
      ((match e.sign with
        | none => []
        | some true => ['-']
        | some false => ['+']) ++ e.digits)

/-- Serialise a number literal exactly as stored. -/
def serNum (n : JNum) : List Char :=
  (if n.neg then ['-'] else []) ++ n.intDigits ++
    (if n.fracDigits.isEmpty then [] else '.' :: n.fracDigits) ++ serExp n.expPart

mutual

/-- Serialise a value the way `json.dumps` does with its default
separators (`", "` between items, `": "` after keys, no whitespace at
the brackets). -/
def serVal : JVal → List Char
  | .null => "null".data
  | .bool true => "true".data
  | .bool false => "false".data
  | .num n => serNum n
  | .str s => serStr s
  | .arr .nil => ['[', ']']
  | .arr (.cons v tl) => '[' :: (serVal v ++ serArrTl tl ++ [']'])
  | .obj .nil => [lbrace, rbrace]
  | .obj (.cons k v tl) =>
    lbrace :: (serStr k ++ ':' :: ' ' :: (serVal v ++ serObjTl tl ++ [rbrace]))

/-- Serialise the remaining items of an array. -/
def serArrTl : JArr → List Char
  | .nil => []
  | .cons v tl => ',' :: ' ' :: (serVal v ++ serArrTl tl)

/-- Serialise the remaining members of an object. -/
def serObjTl : JObj → List Char
  | .nil => []
  | .cons k v tl =>
    ',' :: ' ' :: (serStr k ++ ':' :: ' ' :: (serVal v ++ serObjTl tl))

end

/-- String-level wrapper for `json.dumps`. -/
def json_dumps (v : JVal) : String :=
  ⟨serVal v⟩

/-- Wellformedness of a stored number literal: what the number grammar
guarantees about parsed literals. -/
def wfNum (n : JNum) : Bool :=
  (!n.intDigits.isEmpty) && n.intDigits.all isDigitCh &&
  (n.intDigits = ['0'] || n.intDigits.head? ≠ some '0') &&
  n.fracDigits.all isDigitCh &&
  (match n.expPart with
   | none => true
   | some e => (!e.digits.isEmpty) && e.digits.all isDigitCh)

mutual

/-- Wellformedness of a parsed value: number literals obey the grammar
and object keys are distinct (guaranteed by dict insertion). -/
def wfVal : JVal → Bool
  | .null => true
  | .bool _ => true
  | .num n => wfNum n
  | .str _ => true
  | .arr a => wfArr a
  | .obj o => wfObj o

/-- Wellformedness of every item of an array. -/
def wfArr : JArr → Bool
  | .nil => true
  | .cons v tl => wfVal v && wfArr tl

/-- Wellformedness of an object: values wellformed and keys distinct. -/
def wfObj : JObj → Bool
  | .nil => true
  | .cons k v tl => wfVal v && !tl.hasKey k && wfObj tl

end

/-- Apostrophe character (used by Python `repr` of strings). -/
def squote : Char := Char.ofNat 39

mutual

/-- Python `repr` of a parsed value, to the fidelity needed by the
f-strings in the weather agent (quote escaping inside `repr` of strings
is not modelled; the claims only format numbers and `None`). -/
def pyRepr : JVal → List Char
  | .null => "None".data
  | .bool true => "True".data
  | .bool false => "False".data
  | .num n => serNum n
  | .str s => squote :: (s.data ++ [squote])
  | .arr .nil => ['[', ']']
  | .arr (.cons v tl) => '[' :: (pyRepr v ++ pyReprArrTl tl ++ [']'])
  | .obj .nil => [lbrace, rbrace]
  | .obj (.cons k v tl) =>
    lbrace :: ((squote :: (k.data ++ [squote])) ++ ':' :: ' ' ::
      (pyRepr v ++ pyReprObjTl tl ++ [rbrace]))

/-- Remaining items of a list under `repr`. -/
def pyReprArrTl : JArr → List Char
  | .nil => []
  | .cons v tl => ',' :: ' ' :: (pyRepr v ++ pyReprArrTl tl)

/-- Remaining members of a dict under `repr`. -/
def pyReprObjTl : JObj → List Char
  | .nil => []
  | .cons k v tl =>
    ',' :: ' ' :: ((squote :: (k.data ++ [squote])) ++ ':' :: ' ' ::
      (pyRepr v ++ pyReprObjTl tl))

end

/-- Python `str()` of a parsed value, as interpolated by f-strings:
strings verbatim, everything else via `repr`. -/
def pyStrVal : JVal → String
  | .str s => s
  | v => ⟨pyRepr v⟩

/-- Required keys of the extraction stage. -/
def travelRequiredKeys : List String := ["destination", "duration", "travel_type"]

/-- The fixed fallback record of `DestinationAgent.handle_user_input`. -/
def fallbackTravelInfo : JVal :=
  .obj (objOf [("destination", .str "Paris"), ("duration", .num (natNum 7)),
               ("travel_type", .str "vacation")])

/-- Embeds the reply-processing logic of `DestinationAgent.handle_user_input`
(main.py lines 74-82): parse the model reply against the three required
keys, replace a falsy result by the fixed fallback record, and send the
result to the next stage (modelled as the return value). -/
def handle_user_input (raw_text : String) : JVal :=
  let ti := (safe_load_validated raw_text travelRequiredKeys).1
  if pyTruthy ti then ti else fallbackTravelInfo

/-- Required keys of the geocoding call. -/
def geoRequiredKeys : List String := ["latitude", "longitude"]

/-- Required keys of the weather-assessment call. -/
def analysisRequiredKeys : List String := ["weather_summary", "packing_notes"]

/-- The fixed "unavailable" weather analysis of `WeatherAgent.handle_travel_info`. -/
def unavailableWeatherAnalysis : JVal :=
  .obj (objOf [("weather_summary", .str "Weather data unavailable"),
               ("packing_notes", .arr (.cons (.str "Pack for variable weather conditions") .nil))])

/-- Fallback summary built by string-formatting the reading's exact
temperature and wind values. -/
def tempWindSummary (temperature wind : JVal) : String :=
  "Temp " ++ pyStrVal temperature ++ "°C, wind " ++ pyStrVal wind ++ " m/s"

/-- Fallback weather analysis used when the assessment reply is falsy. -/
def tempWindAnalysis (temperature wind : JVal) : JVal :=
  .obj (objOf [("weather_summary", .str (tempWindSummary temperature wind)),
               ("packing_notes", .arr (.cons (.str "Layer clothing appropriately")
                 (.cons (.str "Consider wind-resistant outerwear") .nil)))])

/-- Observable outcome of one run of `WeatherAgent.handle_travel_info`:
the message sent downstream (`none` models the handler raising, e.g.
`AttributeError` from calling `.get` on a non-dict), and whether the
weather lookup collaborator was invoked. -/
structure EnrichOutcome where
  sent : Option JVal
  lookupCalled : Bool
deriving DecidableEq, Repr

/-- Embeds `WeatherAgent.handle_travel_info` (main.py lines 97-168).
The two model replies (geocoding and assessment) and the weather lookup
collaborator are parameters; prompt construction is elided as it does
not influence the data flow.  A coordinate is kept only when
`isinstance(x, (int, float))` holds for it; if either is unresolved the
lookup is skipped; a falsy lookup result takes the unavailable fallback;
a falsy assessment parse takes the temperature/wind fallback. -/
def handle_travel_info (travel_info : JVal) (geo_raw : String)
    (lookup : JVal → JVal → Option JObj) (analysis_raw : String) : EnrichOutcome :=
  match travel_info with
  | .obj t =>
    match (safe_load_validated geo_raw geoRequiredKeys).1 with
    | .obj g =>
      let latv := g.getD "latitude" .null
      let lonv := g.getD "longitude" .null
      let latitude : Option JVal := if isIntOrFloat latv then some latv else none
      let longitude : Option JVal := if isIntOrFloat lonv then some lonv else none
      match latitude, longitude with
      | some la, some lo =>
        match lookup la lo with
        | some w =>
          if pyTruthy (.obj w) then
            let temperature := w.getD "temperature" .null
            let wind := w.getD "wind_speed" .null
            let wa0 := (safe_load_validated analysis_raw analysisRequiredKeys).1
            let wa := if pyTruthy wa0 then wa0 else tempWindAnalysis temperature wind
            ⟨some (.obj ((t.insert "weather" (.obj w)).insert "weather_analysis" wa)), true⟩
          else
            ⟨some (.obj ((t.insert "weather" .null).insert "weather_analysis"
              unavailableWeatherAnalysis)), true⟩
        | none =>
          ⟨some (.obj ((t.insert "weather" .null).insert "weather_analysis"
            unavailableWeatherAnalysis)), true⟩
      | _, _ =>
        ⟨some (.obj ((t.insert "weather" .null).insert "weather_analysis"
          unavailableWeatherAnalysis)), false⟩
    | _ => ⟨none, false⟩
  | _ => ⟨none, false⟩

/-- Embeds `AzureAIConfig` from `config.py`: the two environment-derived
settings, each absent or a string. -/
structure AzureAIConfig where
  endpoint : Option String
  model_deployment_name : Option String
deriving DecidableEq, Repr

/-- Embeds `AzureAIConfig.validate_config`: only the endpoint is
checked; `None` and the empty string are both falsy and fail. -/
def validate_config (c : AzureAIConfig) : Bool :=
  match c.endpoint with
  | none => false
  | some s => !s.isEmpty

/-- Observable outcome of one call to `run_multi_agent_workflow`: the
returned report or raised error, how many times `WeatherService.close`
was invoked, and how many stages started executing. -/
structure WorkflowRun where
  result : Except String String
  closeCalls : Nat
  stagesExecuted : Nat
deriving Repr

/-- Embeds the control flow of `run_multi_agent_workflow` (main.py lines
281-330).  The configuration check raises before the weather service is
constructed, so no `close` happens on that path; entering the credential
context can also fail before the `try` block, again without a `close`;
once the `try` block is entered, the `finally` clause invokes
`WeatherService.close` exactly once whether the body returns or raises.
`credentialOk` abstracts credential acquisition, `body` the outcome of
agent creation plus the workflow run, and `bodyStages` how many stages
the body executed. -/
def run_multi_agent_workflow (cfg : AzureAIConfig) (credentialOk : Bool)
    (body : Except String String) (bodyStages : Nat) : WorkflowRun :=
  if !validate_config cfg then
    ⟨.error "Missing required configuration", 0, 0⟩
  else if !credentialOk then
    ⟨.error "credential acquisition failed", 0, 0⟩
  else
    ⟨body, 1, bodyStages⟩

/-- Characters that may legally follow a serialised JSON number in
`json.dumps` output: end of input, an item separator, or a closing
bracket.  Used to state the parse/serialise round trip. -/
def numDelim : List Char → Bool
  | [] => true
  | c :: _ => c = ',' || c = ']' || c = rbrace

/-- The head is not a decimal digit (or the list is empty). -/
def headNotDigit : List Char → Bool
  | [] => true
  | c :: _ => !isDigitCh c

/-- The members of a dict as a pair list, inverse view of `pairsToObj`
on duplicate-free dicts. -/
def objToPairs : JObj → List (String × JVal)
  | .nil => []
  | .cons k v tl => (k, v) :: objToPairs tl

/-- Wellformedness of each value of a pair list. -/
def pairsWf : List (String × JVal) → Bool
  | [] => true
  | (_, v) :: tl => wfVal v && pairsWf tl

/-- The dict whose single value is six backtick characters. -/
def tickObj : JObj := .cons "a" (.str ⟨List.replicate 6 tick⟩) .nil

/-- The fallback record evaluates as the expected three-field mapping
(sanity link between the fallback and its literal form). -/
theorem fallbackTravelInfo_fields :
    fallbackTravelInfo = JVal.obj (.cons "destination" (.str "Paris")
      (.cons "duration" (.num ⟨false, ['7'], [], none⟩)
        (.cons "travel_type" (.str "vacation") .nil))) := by
  rfl

/-- Claim C6: `validate_keys` on a mapping answers `true` exactly when
every required key is present, and its missing-keys list is exactly the
subset of required keys absent from the mapping, in the order of
`required`; on a non-mapping it answers `false` with every required key
reported missing. -/
theorem validate_keys_spec (v : JVal) (required : List String) :
    (∀ o, v = JVal.obj o →
      ((validate_keys v required).1 = true ↔ ∀ k ∈ required, o.hasKey k = true) ∧
      (validate_keys v required).2.Sublist required ∧
      (∀ k, k ∈ (validate_keys v required).2 ↔ k ∈ required ∧ o.hasKey k = false)) ∧
    (isDict v = false →
      (validate_keys v required).1 = false ∧ (validate_keys v required).2 = required) := by
  constructor
  · rintro o rfl
    refine ⟨?_, List.filter_sublist _, ?_⟩
    · simp [validate_keys, List.isEmpty_iff, List.filter_eq_nil_iff]
    · intro k
      simp [validate_keys, List.mem_filter]
  · intro h
    cases v <;> simp_all [validate_keys, isDict]

/-- Witness for `validate_keys_spec` at a mapping holding only `a` and at
the non-mapping `null`, both validated against `[a, b]`. -/
theorem validate_keys_spec_w :
    ((validate_keys (JVal.obj (.cons "a" JVal.null .nil)) ["a", "b"]).2 = ["b"] ∧
      (validate_keys (JVal.obj (.cons "a" JVal.null .nil)) ["a", "b"]).1 = false) ∧
    (validate_keys JVal.null ["a", "b"]).2 = ["a", "b"] := by
  have h1 := validate_keys_spec (JVal.obj (.cons "a" JVal.null .nil)) ["a", "b"]
  have h2 := validate_keys_spec JVal.null ["a", "b"]
  exact ⟨⟨by decide, by decide⟩, (h2.2 (by decide)).2⟩

/-- Parse failure is converted into an empty dict plus one warning
(shared helper). -/
theorem safe_load_eq_of_parse_fail (raw : String) (required : List String)
    (h : try_parse_json (extract_json_text raw) = none) :
    safe_load_validated raw required = (JVal.obj .nil, [JWarning.parseErr]) := by
  simp [safe_load_validated, h]

/-- Claim C7: `safe_load_validated` returns normally on every input — in
the embedding it is a total function — and a parse failure is converted
into an empty mapping plus exactly one warning instead of propagating. -/
theorem safe_load_total_and_parse_fail (raw : String) (required : List String) :
    (∃ d w, safe_load_validated raw required = (d, w)) ∧
    (try_parse_json (extract_json_text raw) = none →
      safe_load_validated raw required = (JVal.obj .nil, [JWarning.parseErr])) :=
  ⟨⟨_, _, rfl⟩, fun h => safe_load_eq_of_parse_fail raw required h⟩

/-- Witness for `safe_load_total_and_parse_fail` on prose input. -/
theorem safe_load_total_and_parse_fail_w :
    safe_load_validated "hello" ["a"] = (JVal.obj .nil, [JWarning.parseErr]) :=
  (safe_load_total_and_parse_fail "hello" ["a"]).2 (by decide)

/-- Claim C10: when the extracted candidate text parses to a JSON value
that is not a mapping, `safe_load_validated` returns that value — not an
empty mapping — together with exactly one warning reporting every
required key missing. -/
theorem safe_load_non_mapping (raw : String) (required : List String) (v : JVal)
    (hp : try_parse_json (extract_json_text raw) = some v)
    (hd : isDict v = false) :
    safe_load_validated raw required = (v, [JWarning.missingKeys required]) := by
  cases v <;> simp_all [safe_load_validated, validate_keys, isDict]

/-- Witness for `safe_load_non_mapping` on the input `null`. -/
theorem safe_load_non_mapping_w :
    safe_load_validated "null" ["a", "b"] = (JVal.null, [JWarning.missingKeys ["a", "b"]]) :=
  safe_load_non_mapping "null" ["a", "b"] JVal.null (by decide) (by decide)

/-- Claim C1 (amended): the extraction stage always forwards a truthy
(non-empty) value; when the reply fails to parse entirely the result is
exactly the fixed fallback record; a parsed truthy value is forwarded
as-is and need not contain all three fields. -/
theorem handle_user_input_nonempty_fallback (raw : String) :
    pyTruthy (handle_user_input raw) = true ∧
    (try_parse_json (extract_json_text raw) = none →
      handle_user_input raw = fallbackTravelInfo) := by
  constructor
  · simp only [handle_user_input]
    by_cases h : pyTruthy (safe_load_validated raw travelRequiredKeys).1 = true
    · rwa [if_pos h]
    · rw [if_neg h]
      decide
  · intro h
    have hs : (safe_load_validated raw travelRequiredKeys).1 = JVal.obj .nil := by
      simp [safe_load_validated, h]
    simp [handle_user_input, hs, pyTruthy]

/-- Witness for `handle_user_input_nonempty_fallback` on a reply with no
JSON content. -/
theorem handle_user_input_nonempty_fallback_w :
    handle_user_input "no json here" = fallbackTravelInfo :=
  (handle_user_input_nonempty_fallback "no json here").2 (by decide)

/-- Claim C1 counterexample: on the well-formed reply holding only a
destination, the stage forwards a mapping in which the fields `duration`
and `travel_type` are not populated, falsifying "all three fields are
populated for every reply". -/
theorem handle_user_input_missing_fields_cex :
    handle_user_input "\x7b\"destination\": \"Oslo\"\x7d" =
      JVal.obj (.cons "destination" (.str "Oslo") .nil) ∧
    (JObj.cons "destination" (JVal.str "Oslo") JObj.nil).hasKey "duration" = false ∧
    (JObj.cons "destination" (JVal.str "Oslo") JObj.nil).hasKey "travel_type" = false := by
  decide

/-- Claim C2 (amended): with the configuration endpoint absent the
pipeline raises before any stage executes and before the weather service
is constructed, so `WeatherService.close` is invoked zero times on this
path; once configuration passes and the credential context is entered,
`close` is invoked exactly once on both success and failure of the body. -/
theorem run_workflow_close_discipline (cfg : AzureAIConfig) (cred : Bool)
    (body : Except String String) (n : Nat) :
    (validate_config cfg = false →
      (∃ e, (run_multi_agent_workflow cfg cred body n).result = Except.error e) ∧
      (run_multi_agent_workflow cfg cred body n).stagesExecuted = 0 ∧
      (run_multi_agent_workflow cfg cred body n).closeCalls = 0) ∧
    (validate_config cfg = true → cred = true →
      (run_multi_agent_workflow cfg cred body n).closeCalls = 1) := by
  constructor
  · intro h
    simp [run_multi_agent_workflow, h]
  · intro h hc
    simp [run_multi_agent_workflow, h, hc]

/-- Witness for `run_workflow_close_discipline`: no close on the
config-missing path; exactly one close when the body runs, even when it
raises. -/
theorem run_workflow_close_discipline_w :
    (run_multi_agent_workflow ⟨none, none⟩ false (Except.ok "r") 3).closeCalls = 0 ∧
    (run_multi_agent_workflow ⟨some "https://e", some "m"⟩ true
      (Except.error "boom") 1).closeCalls = 1 :=
  ⟨((run_workflow_close_discipline ⟨none, none⟩ false (Except.ok "r") 3).1 (by decide)).2.2,
    (run_workflow_close_discipline ⟨some "https://e", some "m"⟩ true
      (Except.error "boom") 1).2 (by decide) rfl⟩

/-- Claim C2 counterexample: on the endpoint-absent fatal path the close
count is zero, not one — the weather service is never constructed, so
its shutdown is never invoked. -/
theorem run_workflow_close_zero_cex :
    (run_multi_agent_workflow ⟨none, some "gpt-4o-mini"⟩ true (Except.ok "") 0).closeCalls = 0 ∧
    ¬ (run_multi_agent_workflow ⟨none, some "gpt-4o-mini"⟩ true
        (Except.ok "") 0).closeCalls = 1 ∧
    (run_multi_agent_workflow ⟨none, some "gpt-4o-mini"⟩ true
        (Except.ok "") 0).stagesExecuted = 0 := by
  decide

/-- Lookup after insertion: the inserted key maps to the new value,
every other key is untouched. -/
theorem JObj.get?_insert : ∀ (o : JObj) (k : String) (v : JVal) (k2 : String),
    (o.insert k v).get? k2 = if k = k2 then some v else o.get? k2
  | .nil, k, v, k2 => by simp [JObj.insert, JObj.get?]
  | .cons k1 w tl, k, v, k2 => by
    simp only [JObj.insert]
    by_cases h1 : k1 = k
    · subst h1
      simp only [if_pos rfl, JObj.get?]
      by_cases h2 : k1 = k2 <;> simp [h2]
    · rw [if_neg h1]
      simp only [JObj.get?, JObj.get?_insert tl k v k2]
      by_cases h2 : k1 = k2 <;> by_cases h3 : k = k2 <;> simp_all

/-- Key membership after insertion. -/
theorem JObj.hasKey_insert (o : JObj) (k : String) (v : JVal) (k2 : String) :
    (o.insert k v).hasKey k2 = if k = k2 then true else o.hasKey k2 := by
  simp only [JObj.hasKey, JObj.get?_insert]
  by_cases h : k = k2 <;> simp [h]

/-- Inserting a fresh key appends it to the key sequence. -/
theorem JObj.keys_insert_fresh : ∀ (o : JObj) (k : String) (v : JVal),
    o.hasKey k = false → (o.insert k v).keys = o.keys ++ [k]
  | .nil, k, v, _ => by simp [JObj.insert, JObj.keys]
  | .cons k1 w tl, k, v, h => by
    simp only [JObj.hasKey, JObj.get?] at h
    by_cases h1 : k1 = k
    · simp [h1] at h
    · simp only [JObj.insert, if_neg h1, JObj.keys]
      rw [JObj.keys_insert_fresh tl k v (by simpa [JObj.hasKey, h1] using h)]
      simp

/-- An absent key looks up to nothing. -/
theorem JObj.get?_eq_none_of_hasKey_false (o : JObj) (k : String)
    (h : o.hasKey k = false) : o.get? k = none := by
  simpa [JObj.hasKey, Option.isSome_iff_exists] using h

/-- Every sent message of the enrichment stage is the incoming mapping
with `weather` and then `weather_analysis` inserted. -/
theorem handle_travel_info_sent_shape (t : JObj) (geo_raw : String)
    (lookup : JVal → JVal → Option JObj) (analysis_raw : String) (out : JVal)
    (h : (handle_travel_info (.obj t) geo_raw lookup analysis_raw).sent = some out) :
    ∃ wv av, out = .obj ((t.insert "weather" wv).insert "weather_analysis" av) := by
  simp only [handle_travel_info] at h
  repeat' split at h
  all_goals simp_all
  all_goals exact ⟨_, _, h.symm⟩

/-- Path lemma: when the parsed geocoding result is a mapping and either
coordinate is unresolved, the stage skips the lookup and emits the
unavailable fallback. -/
theorem handle_travel_info_unresolved (t g : JObj) (geo_raw analysis_raw : String)
    (lookup : JVal → JVal → Option JObj)
    (hg : (safe_load_validated geo_raw geoRequiredKeys).1 = .obj g)
    (h : isIntOrFloat (g.getD "latitude" .null) = false ∨
         isIntOrFloat (g.getD "longitude" .null) = false) :
    handle_travel_info (.obj t) geo_raw lookup analysis_raw =
      ⟨some (.obj ((t.insert "weather" .null).insert "weather_analysis"
        unavailableWeatherAnalysis)), false⟩ := by
  simp only [handle_travel_info, hg]
  rcases h with h | h
  · simp [h]
  · by_cases hla : isIntOrFloat (g.getD "latitude" JVal.null) <;> simp [h, hla]

/-- Path lemma: resolved coordinates but a null lookup result also emit
the unavailable fallback, with the lookup invoked. -/
theorem handle_travel_info_lookup_none (t g : JObj) (geo_raw analysis_raw : String)
    (lookup : JVal → JVal → Option JObj)
    (hg : (safe_load_validated geo_raw geoRequiredKeys).1 = .obj g)
    (hla : isIntOrFloat (g.getD "latitude" .null) = true)
    (hlo : isIntOrFloat (g.getD "longitude" .null) = true)
    (hlk : lookup (g.getD "latitude" .null) (g.getD "longitude" .null) = none) :
    handle_travel_info (.obj t) geo_raw lookup analysis_raw =
      ⟨some (.obj ((t.insert "weather" .null).insert "weather_analysis"
        unavailableWeatherAnalysis)), true⟩ := by
  simp [handle_travel_info, hg, hla, hlo, hlk]

/-- Path lemma: a truthy weather reading whose assessment parse is falsy
emits the temperature/wind fallback analysis. -/
theorem handle_travel_info_analysis_falsy (t g w : JObj) (geo_raw analysis_raw : String)
    (lookup : JVal → JVal → Option JObj)
    (hg : (safe_load_validated geo_raw geoRequiredKeys).1 = .obj g)
    (hla : isIntOrFloat (g.getD "latitude" .null) = true)
    (hlo : isIntOrFloat (g.getD "longitude" .null) = true)
    (hlk : lookup (g.getD "latitude" .null) (g.getD "longitude" .null) = some w)
    (hw : pyTruthy (.obj w) = true)
    (ha : pyTruthy (safe_load_validated analysis_raw analysisRequiredKeys).1 = false) :
    handle_travel_info (.obj t) geo_raw lookup analysis_raw =
      ⟨some (.obj ((t.insert "weather" (.obj w)).insert "weather_analysis"
        (tempWindAnalysis (w.getD "temperature" .null) (w.getD "wind_speed" .null)))), true⟩ := by
  simp [handle_travel_info, hg, hla, hlo, hlk, hw, ha]

/-- Claim C3 (amended): in the enrichment stage a coordinate field is
accepted exactly when `isinstance(x, (int, float))` holds for its parsed
value — which admits JSON booleans, Python `bool` being an `int`
subtype; when the parsed geocoding result is a mapping and latitude or
longitude is missing or of any other type, the weather lookup is never
invoked and the emitted `weather_analysis` equals the unavailable
fallback exactly (a non-mapping geocoding result instead raises
`AttributeError` and nothing is emitted). -/
theorem geo_unresolved_skips_lookup (t g : JObj) (geo_raw analysis_raw : String)
    (lookup : JVal → JVal → Option JObj)
    (hg : (safe_load_validated geo_raw geoRequiredKeys).1 = .obj g)
    (h : isIntOrFloat (g.getD "latitude" .null) = false ∨
         isIntOrFloat (g.getD "longitude" .null) = false) :
    (handle_travel_info (.obj t) geo_raw lookup analysis_raw).lookupCalled = false ∧
    ∃ u, (handle_travel_info (.obj t) geo_raw lookup analysis_raw).sent = some (.obj u) ∧
      u.get? "weather_analysis" = some unavailableWeatherAnalysis := by
  rw [handle_travel_info_unresolved t g geo_raw analysis_raw lookup hg h]
  refine ⟨rfl, _, rfl, ?_⟩
  simp [JObj.get?_insert]

/-- Witness for `geo_unresolved_skips_lookup`: a geocoding reply with no
latitude field skips the lookup and takes the unavailable fallback. -/
theorem geo_unresolved_skips_lookup_w :
    (handle_travel_info (.obj (.cons "destination" (.str "Paris") .nil))
      "\x7b\"longitude\": 2\x7d" (fun _ _ => some (.cons "temperature" JVal.null .nil))
      "x").lookupCalled = false ∧
    ∃ u, (handle_travel_info (.obj (.cons "destination" (.str "Paris") .nil))
      "\x7b\"longitude\": 2\x7d" (fun _ _ => some (.cons "temperature" JVal.null .nil))
      "x").sent = some (.obj u) ∧
      u.get? "weather_analysis" = some unavailableWeatherAnalysis :=
  geo_unresolved_skips_lookup (.cons "destination" (.str "Paris") .nil)
    (.cons "longitude" (.num ⟨false, ['2'], [], none⟩) .nil) "\x7b\"longitude\": 2\x7d" "x"
    (fun _ _ => some (.cons "temperature" JVal.null .nil))
    (by decide) (Or.inl (by decide))

/-- Claim C3 counterexample: on the geocoding reply with a boolean
latitude the weather lookup is invoked, although `true` is not a JSON
number — `isinstance(True, (int, float))` holds in Python. -/
theorem geo_bool_coordinate_lookup_cex :
    (handle_travel_info (.obj (.cons "destination" (.str "Paris") .nil))
      "\x7b\"latitude\": true, \"longitude\": 2\x7d" (fun _ _ => none) "").lookupCalled
      = true := by
  decide

/-- Claim C4: with resolved coordinates, a null weather lookup makes the
emitted `weather_analysis` exactly the unavailable fallback; and a
truthy reading whose assessment reply fails to parse makes it exactly
the fallback built by formatting that reading's temperature and wind
values with the two fixed packing notes. -/
theorem weather_fallback_spec (t g : JObj) (geo_raw analysis_raw : String)
    (lookup : JVal → JVal → Option JObj)
    (hg : (safe_load_validated geo_raw geoRequiredKeys).1 = .obj g)
    (hla : isIntOrFloat (g.getD "latitude" .null) = true)
    (hlo : isIntOrFloat (g.getD "longitude" .null) = true) :
    (lookup (g.getD "latitude" .null) (g.getD "longitude" .null) = none →
      ∃ u, (handle_travel_info (.obj t) geo_raw lookup analysis_raw).sent = some (.obj u) ∧
        u.get? "weather_analysis" = some unavailableWeatherAnalysis ∧
        u.get? "weather" = some .null) ∧
    (∀ w, lookup (g.getD "latitude" .null) (g.getD "longitude" .null) = some w →
      pyTruthy (.obj w) = true →
      try_parse_json (extract_json_text analysis_raw) = none →
      ∃ u, (handle_travel_info (.obj t) geo_raw lookup analysis_raw).sent = some (.obj u) ∧
        u.get? "weather_analysis" = some (tempWindAnalysis (w.getD "temperature" .null)
          (w.getD "wind_speed" .null))) := by
  constructor
  · intro hlk
    rw [handle_travel_info_lookup_none t g geo_raw analysis_raw lookup hg hla hlo hlk]
    exact ⟨_, rfl, by simp [JObj.get?_insert], by simp [JObj.get?_insert]⟩
  · intro w hlk hw hparse
    have hs : (safe_load_validated analysis_raw analysisRequiredKeys).1 = JVal.obj .nil := by
      simp [safe_load_validated, hparse]
    have ha : pyTruthy (safe_load_validated analysis_raw analysisRequiredKeys).1 = false := by
      rw [hs]
      rfl
    rw [handle_travel_info_analysis_falsy t g w geo_raw analysis_raw lookup hg hla hlo hlk hw ha]
    exact ⟨_, rfl, by simp [JObj.get?_insert]⟩

/-- Witness for `weather_fallback_spec`: a concrete reading of 18.0°C and
3.2 m/s with an unparsable assessment reply yields the formatted
fallback summary. -/
theorem weather_fallback_spec_w :
    ∃ u, (handle_travel_info (.obj (.cons "destination" (.str "Paris") .nil))
      "\x7b\"latitude\": 48.85, \"longitude\": 2.35\x7d"
      (fun _ _ => some (.cons "temperature" (.num ⟨false, ['1', '8'], ['0'], none⟩)
        (.cons "wind_speed" (.num ⟨false, ['3'], ['2'], none⟩) .nil))) "garbage").sent
        = some (.obj u) ∧
      u.get? "weather_analysis" = some (tempWindAnalysis
        (.num ⟨false, ['1', '8'], ['0'], none⟩) (.num ⟨false, ['3'], ['2'], none⟩)) :=
  (weather_fallback_spec (.cons "destination" (.str "Paris") .nil)
    (.cons "latitude" (.num ⟨false, ['4', '8'], ['8', '5'], none⟩)
      (.cons "longitude" (.num ⟨false, ['2'], ['3', '5'], none⟩) .nil))
    "\x7b\"latitude\": 48.85, \"longitude\": 2.35\x7d" "garbage"
    (fun _ _ => some (.cons "temperature" (.num ⟨false, ['1', '8'], ['0'], none⟩)
      (.cons "wind_speed" (.num ⟨false, ['3'], ['2'], none⟩) .nil)))
    (by decide) (by decide) (by decide)).2
    (.cons "temperature" (.num ⟨false, ['1', '8'], ['0'], none⟩)
      (.cons "wind_speed" (.num ⟨false, ['3'], ['2'], none⟩) .nil))
    (by decide) (by decide) (by decide)

/-- Claim C9: for a travel-info mapping without the keys `weather` and
`weather_analysis`, whatever the enrichment stage emits preserves every
key of the mapping with its value unchanged and appends exactly the two
new fields. -/
theorem enrich_frame (t : JObj) (geo_raw analysis_raw : String)
    (lookup : JVal → JVal → Option JObj) (out : JVal)
    (hw : t.hasKey "weather" = false) (hwa : t.hasKey "weather_analysis" = false)
    (hsent : (handle_travel_info (.obj t) geo_raw lookup analysis_raw).sent = some out) :
    ∃ u wv av, out = .obj u ∧
      (∀ k, t.hasKey k = true → u.get? k = t.get? k) ∧
      u.keys = t.keys ++ ["weather", "weather_analysis"] ∧
      u.get? "weather" = some wv ∧ u.get? "weather_analysis" = some av := by
  obtain ⟨wv, av, rfl⟩ := handle_travel_info_sent_shape t geo_raw lookup analysis_raw out hsent
  refine ⟨_, wv, av, rfl, ?_, ?_, ?_, ?_⟩
  · intro k hk
    have h1 : ("weather" : String) ≠ k := by
      rintro rfl
      rw [hw] at hk
      cases hk
    have h2 : ("weather_analysis" : String) ≠ k := by
      rintro rfl
      rw [hwa] at hk
      cases hk
    simp [JObj.get?_insert, h1, h2]
  · rw [JObj.keys_insert_fresh _ _ _ (by rw [JObj.hasKey_insert]; simp [hwa]),
      JObj.keys_insert_fresh t "weather" wv hw]
    simp
  · simp [JObj.get?_insert]
  · simp [JObj.get?_insert]

/-- Witness for `enrich_frame`: a concrete run on the unresolved-geo path
keeps the destination field and appends the two weather fields. -/
theorem enrich_frame_w :
    ∃ u wv av,
      (JVal.obj ((((JObj.cons "destination" (.str "Paris") .nil).insert "weather"
        JVal.null).insert "weather_analysis" unavailableWeatherAnalysis)) = JVal.obj u) ∧
      (∀ k, (JObj.cons "destination" (JVal.str "Paris") JObj.nil).hasKey k = true →
        u.get? k = (JObj.cons "destination" (JVal.str "Paris") JObj.nil).get? k) ∧
      u.keys = ["destination", "weather", "weather_analysis"] ∧
      u.get? "weather" = some wv ∧ u.get? "weather_analysis" = some av :=
  enrich_frame (.cons "destination" (.str "Paris") .nil) "x" "" (fun _ _ => none)
    (.obj (((JObj.cons "destination" (.str "Paris") .nil).insert "weather"
      JVal.null).insert "weather_analysis" unavailableWeatherAnalysis))
    (by decide) (by decide) (by decide)

/-- Characters of the stripped text come from the original. -/
theorem mem_pyStrip {s : List Char} {c : Char} (h : c ∈ pyStrip s) : c ∈ s := by
  unfold pyStrip at h
  have h1 : c ∈ s.dropWhile pyIsSpace :=
    (List.rdropWhile_prefix pyIsSpace (s.dropWhile pyIsSpace)).sublist.subset h
  exact (List.dropWhile_suffix pyIsSpace).sublist.subset h1

/-- The stripped text has no leading stripped character left. -/
theorem pyStrip_left_stripped (s : List Char) :
    (pyStrip s).dropWhile pyIsSpace = pyStrip s := by
  rcases heq : pyStrip s with _ | ⟨c, t⟩
  · simp
  · have hpre : pyStrip s <+: s.dropWhile pyIsSpace :=
      List.rdropWhile_prefix pyIsSpace (s.dropWhile pyIsSpace)
    rw [heq] at hpre
    obtain ⟨r, hr⟩ := hpre
    have hh : (s.dropWhile pyIsSpace).head? = some c := by
      rw [← hr]
      rfl
    have hnp := List.head?_dropWhile_not pyIsSpace s
    rw [hh] at hnp
    rw [List.dropWhile_cons, if_neg (by simp [hnp])]

/-- Python `strip` is idempotent. -/
theorem pyStrip_idem (s : List Char) : pyStrip (pyStrip s) = pyStrip s := by
  show ((pyStrip s).dropWhile pyIsSpace).rdropWhile pyIsSpace = pyStrip s
  rw [pyStrip_left_stripped]
  show ((s.dropWhile pyIsSpace).rdropWhile pyIsSpace).rdropWhile pyIsSpace = pyStrip s
  rw [List.rdropWhile_idempotent]
  rfl

/-- With no fence match on the trimmed input and no curly bracket
characters, extraction returns the trimmed input unchanged. -/
theorem extract_no_fence_no_brace (raw : List Char)
    (hf : fenceSearch (pyStrip raw) = none)
    (hl : lbrace ∉ raw) (_hr : rbrace ∉ raw) :
    extract_json_text_core raw = pyStrip raw := by
  have hl1 : lbrace ∉ pyStrip raw := fun h => hl (mem_pyStrip h)
  have hcond : ¬((pyStrip raw).head? = some lbrace ∧
      (pyStrip raw).getLast? = some rbrace) := by
    rintro ⟨h1, -⟩
    rcases hps : pyStrip raw with _ | ⟨c, t⟩
    · rw [hps] at h1
      cases h1
    · rw [hps] at h1
      apply hl1
      rw [hps]
      simp only [List.head?_cons, Option.some.injEq] at h1
      simp [h1]
  have hidx : (pyStrip raw).findIdx? (· = lbrace) = none := by
    rw [List.findIdx?_eq_none_iff]
    intro x hx
    simp only [decide_eq_false_iff_not]
    rintro rfl
    exact hl1 hx
  simp only [extract_json_text_core, hf, if_neg hcond, hidx]
  exact pyStrip_idem raw

/-- Claim C5 (amended): for input with no fenced block and no brace
characters, `extract_json_text` returns the trimmed input unchanged;
when that trimmed text moreover is not valid JSON (prose — bare scalars
such as `42` do parse), `try_parse_json` on it fails and
`safe_load_validated` returns an empty mapping with exactly one
warning. -/
theorem no_fence_no_brace_spec (input : String) (keys : List String)
    (hf : fenceSearch (pyStrip input.data) = none)
    (hl : lbrace ∉ input.data) (hr : rbrace ∉ input.data) :
    extract_json_text input = ⟨pyStrip input.data⟩ ∧
    (try_parse_json ⟨pyStrip input.data⟩ = none →
      safe_load_validated input keys = (JVal.obj .nil, [JWarning.parseErr])) := by
  have he : extract_json_text input = ⟨pyStrip input.data⟩ := by
    unfold extract_json_text
    rw [extract_no_fence_no_brace input.data hf hl hr]
  refine ⟨he, fun hp => ?_⟩
  apply safe_load_eq_of_parse_fail
  rw [he]
  exact hp

/-- Witness for `no_fence_no_brace_spec` on plain prose. -/
theorem no_fence_no_brace_spec_w :
    extract_json_text "plain prose reply" = "plain prose reply" ∧
    safe_load_validated "plain prose reply" ["a"] = (JVal.obj .nil, [JWarning.parseErr]) := by
  have h := no_fence_no_brace_spec "plain prose reply" ["a"] (by decide) (by decide) (by decide)
  exact ⟨h.1.trans (by decide), h.2 (by decide)⟩

/-- Claim C5 counterexample: the input `42` has no fence and no braces,
yet its trimmed text parses as JSON, and `safe_load_validated` returns
the parsed number with a missing-keys warning, not an empty mapping. -/
theorem no_fence_no_brace_cex :
    lbrace ∉ ("42" : String).data ∧ rbrace ∉ ("42" : String).data ∧
    fenceSearch (pyStrip ("42" : String).data) = none ∧
    try_parse_json (extract_json_text "42") = some (.num ⟨false, ['4', '2'], [], none⟩) ∧
    safe_load_validated "42" ["a"] =
      (.num ⟨false, ['4', '2'], [], none⟩, [JWarning.missingKeys ["a"]]) := by
  decide

/-- Validity of every `Char`: its code point is below the surrogate
range, or above it and below 0x110000. -/
theorem char_valid_range (c : Char) :
    c.toNat < 55296 ∨ (57343 < c.toNat ∧ c.toNat < 1114112) :=
  c.valid

/-- Hex digits render and re-parse. -/
theorem hexVal_toHexDigit : ∀ d, d < 16 → hexVal (toHexDigit d) = some d := by
  decide

/-- A four-digit hex rendering re-parses to the rendered value. -/
theorem hex4Val_hex4 (n : Nat) (h : n < 65536) :
    hex4Val (toHexDigit (n / 4096 % 16)) (toHexDigit (n / 256 % 16))
      (toHexDigit (n / 16 % 16)) (toHexDigit (n % 16)) = some n := by
  unfold hex4Val
  rw [hexVal_toHexDigit _ (Nat.mod_lt _ (by omega)),
    hexVal_toHexDigit _ (Nat.mod_lt _ (by omega)),
    hexVal_toHexDigit _ (Nat.mod_lt _ (by omega)),
    hexVal_toHexDigit _ (Nat.mod_lt _ (by omega))]
  simp only [Option.some.injEq]
  omega

/-- Escaping one character prepends its escape to the escaped tail. -/
theorem escStr_cons (c : Char) (t : List Char) :
    escStr (c :: t) = escChar c ++ escStr t := by
  simp [escStr]

/-- Step: a quote ends the string body. -/
theorem parseStrBody_quote (r : List Char) : parseStrBody ('"' :: r) = some ([], r) := rfl

/-- Step: a backslash defers to the escape parser. -/
theorem parseStrBody_esc (r : List Char) : parseStrBody ('\\' :: r) = parseEsc r := rfl

/-- Step: an unescaped non-control character is taken verbatim. -/
theorem parseStrBody_lit (c : Char) (r : List Char) (h1 : ¬ c = '"') (h2 : ¬ c = '\\')
    (h3 : ¬ c.toNat < 32) :
    parseStrBody (c :: r) = (parseStrBody r).map (fun p => (c :: p.1, p.2)) := by
  conv_lhs => unfold parseStrBody
  rw [if_neg h1, if_neg h2, if_neg h3]

/-- Step: a short escape decodes through `shortEsc`. -/
theorem parseEsc_short (e c : Char) (r : List Char) (he : ¬ e = 'u')
    (hs : shortEsc e = some c) :
    parseEsc (e :: r) = (parseStrBody r).map (fun p => (c :: p.1, p.2)) := by
  conv_lhs => unfold parseEsc
  rw [if_neg he, hs]

/-- Step: a `u` escape defers to the hex parser. -/
theorem parseEsc_u (r : List Char) : parseEsc ('u' :: r) = parseUEsc r := by
  conv_lhs => unfold parseEsc
  rw [if_pos rfl]

/-- Step: a non-surrogate hex escape decodes to its code point. -/
theorem parseUEsc_bmp (a b c d : Char) (r : List Char) (h : Nat)
    (hh : hex4Val a b c d = some h)
    (hs1 : ¬(55296 ≤ h ∧ h < 56320)) (hs2 : ¬(56320 ≤ h ∧ h < 57344)) :
    parseUEsc (a :: b :: c :: d :: r) =
      (parseStrBody r).map (fun p => (Char.ofNat h :: p.1, p.2)) := by
  conv_lhs => unfold parseUEsc
  simp only [hh]
  rw [if_neg hs1, if_neg hs2]

/-- Step: a high-surrogate hex escape defers to the low-surrogate parser. -/
theorem parseUEsc_high (a b c d : Char) (r : List Char) (h : Nat)
    (hh : hex4Val a b c d = some h) (hs1 : 55296 ≤ h ∧ h < 56320) :
    parseUEsc (a :: b :: c :: d :: r) = parseLowEsc h r := by
  conv_lhs => unfold parseUEsc
  simp only [hh]
  rw [if_pos hs1]

/-- Step: a low-surrogate escape recombines with the pending high half. -/
theorem parseLowEsc_low (a2 b2 c2 d2 : Char) (r : List Char) (h l : Nat)
    (hl : hex4Val a2 b2 c2 d2 = some l) (hs2 : 56320 ≤ l ∧ l < 57344) :
    parseLowEsc h ('\\' :: 'u' :: a2 :: b2 :: c2 :: d2 :: r) =
      (parseStrBody r).map
        (fun p => (Char.ofNat (65536 + (h - 55296) * 1024 + (l - 56320)) :: p.1, p.2)) := by
  simp only [parseLowEsc, hl]
  rw [if_pos hs2]

/-- The string-body parser undoes `json.dumps` escaping: reading the
escaped characters followed by the closing quote returns the original
characters and the remainder. -/
theorem parseStrBody_escStr : ∀ (s : List Char) (rest : List Char),
    parseStrBody (escStr s ++ '"' :: rest) = some (s, rest)
  | [], rest => by simp [escStr, parseStrBody]
  | c :: t, rest => by
    have ih := parseStrBody_escStr t rest
    rw [escStr_cons, List.append_assoc]
    unfold escChar
    split_ifs with h1 h2 h3 h4 h5 h6 h7 h8 h9
    · subst h1
      rw [List.cons_append, List.cons_append, List.nil_append, parseStrBody_esc,
        parseEsc_short '"' '"' _ (by decide) (by decide), ih]
      rfl
    · subst h2
      rw [List.cons_append, List.cons_append, List.nil_append, parseStrBody_esc,
        parseEsc_short '\\' '\\' _ (by decide) (by decide), ih]
      rfl
    · subst h3
      rw [List.cons_append, List.cons_append, List.nil_append, parseStrBody_esc,
        parseEsc_short 'n' '\n' _ (by decide) (by decide), ih]
      rfl
    · subst h4
      rw [List.cons_append, List.cons_append, List.nil_append, parseStrBody_esc,
        parseEsc_short 'r' '\r' _ (by decide) (by decide), ih]
      rfl
    · subst h5
      rw [List.cons_append, List.cons_append, List.nil_append, parseStrBody_esc,
        parseEsc_short 't' '\t' _ (by decide) (by decide), ih]
      rfl
    · have hc : c = Char.ofNat 8 := by
        rw [← h6]
        exact (Char.ofNat_toNat c).symm
      subst hc
      rw [List.cons_append, List.cons_append, List.nil_append, parseStrBody_esc,
        parseEsc_short 'b' (Char.ofNat 8) _ (by decide) (by decide), ih]
      rfl
    · have hc : c = Char.ofNat 12 := by
        rw [← h7]
        exact (Char.ofNat_toNat c).symm
      subst hc
      rw [List.cons_append, List.cons_append, List.nil_append, parseStrBody_esc,
        parseEsc_short 'f' (Char.ofNat 12) _ (by decide) (by decide), ih]
      rfl
    · have h3' : ¬ c.toNat < 32 := by omega
      rw [List.cons_append, List.nil_append, parseStrBody_lit c _ h1 h2 h3', ih]
      rfl
    · have hval := char_valid_range c
      simp only [hex4, List.cons_append, List.nil_append]
      rw [parseStrBody_esc, parseEsc_u,
        parseUEsc_bmp _ _ _ _ _ _ (hex4Val_hex4 c.toNat h9) (by omega) (by omega),
        ih, Char.ofNat_toNat]
      rfl
    · have hval := char_valid_range c
      have hub : c.toNat < 1114112 := by omega
      have hdiv : (c.toNat - 65536) / 1024 < 1024 := by
        apply Nat.div_lt_of_lt_mul
        omega
      have hmod : (c.toNat - 65536) % 1024 < 1024 :=
        Nat.mod_lt _ (by omega)
      simp only [hex4, List.cons_append, List.nil_append, List.append_assoc]
      rw [parseStrBody_esc, parseEsc_u,
        parseUEsc_high _ _ _ _ _ _ (hex4Val_hex4 _ (by omega)) ⟨by omega, by omega⟩,
        parseLowEsc_low _ _ _ _ _ _ _ (hex4Val_hex4 _ (by omega)) ⟨by omega, by omega⟩,
        ih]
      have hX : 65536 + (55296 + (c.toNat - 65536) / 1024 - 55296) * 1024 +
          (56320 + (c.toNat - 65536) % 1024 - 56320) = c.toNat := by
        have := Nat.div_add_mod (c.toNat - 65536) 1024
        omega
      rw [hX, Char.ofNat_toNat]
      rfl

/-- A digit is not JSON whitespace. -/
theorem isJsonWs_false_of_digit (c : Char) (h : isDigitCh c = true) :
    isJsonWs c = false := by
  simp only [isJsonWs, Bool.or_eq_false_iff, decide_eq_false_iff_not]
  refine ⟨⟨⟨?_, ?_⟩, ?_⟩, ?_⟩ <;> rintro rfl <;> exact absurd h (by decide)

/-- A digit is none of the number-structure characters. -/
theorem digit_ne_marks (c : Char) (h : isDigitCh c = true) :
    c ≠ '-' ∧ c ≠ '+' ∧ c ≠ '.' ∧ c ≠ 'e' ∧ c ≠ 'E' := by
  refine ⟨?_, ?_, ?_, ?_, ?_⟩ <;> rintro rfl <;> exact absurd h (by decide)

/-- A number delimiter neither starts a digit run nor a number part. -/
theorem numDelim_facts (r : List Char) (h : numDelim r = true) :
    headNotDigit r = true ∧
    (∀ c, r.head? = some c → c ≠ '.' ∧ c ≠ 'e' ∧ c ≠ 'E' ∧ c ≠ '-') := by
  cases r with
  | nil => exact ⟨rfl, fun c hc => by cases hc⟩
  | cons c t =>
    simp only [numDelim, Bool.or_eq_true, decide_eq_true_eq] at h
    rcases h with (h | h) | h <;> subst h <;>
      exact ⟨rfl, fun c hc => by cases hc; exact ⟨by decide, by decide, by decide, by decide⟩⟩

/-- Splitting a digit run from a non-digit remainder. -/
theorem takeWhile_dropWhile_digits : ∀ (ds r : List Char),
    ds.all isDigitCh = true → headNotDigit r = true →
    (ds ++ r).takeWhile isDigitCh = ds ∧ (ds ++ r).dropWhile isDigitCh = r
  | [], r, _, h2 => by
    cases r with
    | nil => exact ⟨rfl, rfl⟩
    | cons c t =>
      simp only [headNotDigit, Bool.not_eq_true'] at h2
      simp [List.takeWhile_cons, List.dropWhile_cons, h2]
  | d :: ds, r, h1, h2 => by
    simp only [List.all_cons, Bool.and_eq_true] at h1
    have ih := takeWhile_dropWhile_digits ds r h1.2 h2
    simp [List.takeWhile_cons, List.dropWhile_cons, h1.1, ih.1, ih.2]

/-- `takeDigits` splits a digit run from a non-digit remainder. -/
theorem takeDigits_append (ds r : List Char) (h1 : ds.all isDigitCh = true)
    (h2 : headNotDigit r = true) : takeDigits (ds ++ r) = (ds, r) := by
  have h := takeWhile_dropWhile_digits ds r h1 h2
  simp [takeDigits, List.span_eq_take_drop, h.1, h.2]

/-- `parseIntDigits` reads back a wellformed integer-part digit run. -/
theorem parseIntDigits_digits (ds r : List Char)
    (hne : ds ≠ []) (hall : ds.all isDigitCh = true)
    (hlz : ds = ['0'] ∨ ds.head? ≠ some '0')
    (h2 : headNotDigit r = true) :
    parseIntDigits (ds ++ r) = some (ds, r) := by
  cases ds with
  | nil => exact absurd rfl hne
  | cons d tl =>
    simp only [List.all_cons, Bool.and_eq_true] at hall
    by_cases hd0 : d = '0'
    · subst hd0
      have htl : tl = [] := by
        rcases hlz with h | h
        · injection h
        · simp at h
      subst htl
      simp [parseIntDigits]
    · simp only [List.cons_append, parseIntDigits]
      rw [if_neg hd0, if_pos hall.1, takeDigits_append tl r hall.2 h2]

/-- `parseFrac` leaves a non-dot-headed input untouched. -/
theorem parseFrac_skip (s : List Char) (h : ∀ c, s.head? = some c → c ≠ '.') :
    parseFrac s = ([], s) := by
  cases s with
  | nil => rfl
  | cons c t =>
    simp only [parseFrac]
    rw [if_neg (h c rfl)]

/-- `parseFrac` reads back a nonempty fractional digit run. -/
theorem parseFrac_digits (fd r : List Char) (hne : fd ≠ [])
    (hall : fd.all isDigitCh = true) (h2 : headNotDigit r = true) :
    parseFrac ('.' :: (fd ++ r)) = (fd, r) := by
  have ht := takeDigits_append fd r hall h2
  simp [parseFrac, ht, hne]

/-- `parseExpPart` leaves a non-exponent-headed input untouched. -/
theorem parseExpPart_skip (s : List Char)
    (h : ∀ c, s.head? = some c → ¬(c = 'e' ∨ c = 'E')) :
    parseExpPart s = (none, s) := by
  cases s with
  | nil => rfl
  | cons c t =>
    simp only [parseExpPart]
    rw [if_neg (h c rfl)]

/-- `parseExpPart` reads back a wellformed serialised exponent. -/
theorem parseExpPart_exp (e : JExp) (rest : List Char)
    (hne : e.digits ≠ []) (hall : e.digits.all isDigitCh = true)
    (hd : numDelim rest = true) :
    parseExpPart (serExp (some e) ++ rest) = (some e, rest) := by
  obtain ⟨up, sg, dg⟩ := e
  have hnd : headNotDigit rest = true := (numDelim_facts rest hd).1
  have ht := takeDigits_append dg rest hall hnd
  cases dg with
  | nil => exact absurd rfl hne
  | cons d tl =>
    have hdd : isDigitCh d = true := by
      simp only [List.all_cons, Bool.and_eq_true] at hall
      exact hall.1
    have hm := digit_ne_marks d hdd
    simp only [List.cons_append] at ht
    rcases sg with - | b
    · cases up <;>
        simp [serExp, parseExpPart, hm.1, hm.2.1, ht, List.cons_append]
    · cases b <;> cases up <;>
        simp [serExp, parseExpPart, ht, List.cons_append]

/-- The serialised exponent (or the delimiter) does not start with a
digit. -/
theorem headNotDigit_serExp_rest (ep : Option JExp) (rest : List Char)
    (hd : numDelim rest = true) : headNotDigit (serExp ep ++ rest) = true := by
  cases ep with
  | none =>
    simp only [serExp, List.nil_append]
    exact (numDelim_facts rest hd).1
  | some e =>
    by_cases up : e.upper <;> simp [serExp, up, headNotDigit] <;> decide

/-- The serialised exponent (or the delimiter) does not start with a
dot. -/
theorem head_serExp_rest_ne_dot (ep : Option JExp) (rest : List Char)
    (hd : numDelim rest = true) :
    ∀ c, (serExp ep ++ rest).head? = some c → c ≠ '.' := by
  cases ep with
  | none =>
    simp only [serExp, List.nil_append]
    exact fun c hc => ((numDelim_facts rest hd).2 c hc).1
  | some e =>
    by_cases up : e.upper <;> simp [serExp, up]

/-- The fractional part followed by exponent and delimiter parses back
to exactly the stored fractional digits. -/
theorem parseFrac_of_parts (fds : List Char) (ep : Option JExp) (rest : List Char)
    (hfall : fds.all isDigitCh = true) (hd : numDelim rest = true) :
    parseFrac ((if fds.isEmpty then [] else '.' :: fds) ++ (serExp ep ++ rest)) =
      (fds, serExp ep ++ rest) := by
  by_cases hf : fds.isEmpty
  · have hnil : fds = [] := by simpa using hf
    subst hnil
    rw [if_pos hf, List.nil_append,
      parseFrac_skip _ (head_serExp_rest_ne_dot ep rest hd)]
  · have hfne : fds ≠ [] := by simpa using hf
    rw [if_neg hf, List.cons_append,
      parseFrac_digits fds _ hfne hfall (headNotDigit_serExp_rest ep rest hd)]

/-- The exponent part followed by the delimiter parses back to exactly
the stored exponent. -/
theorem parseExpPart_of_parts (ep : Option JExp) (rest : List Char)
    (hexp : (match ep with
      | none => true
      | some e => (!e.digits.isEmpty) && e.digits.all isDigitCh) = true)
    (hd : numDelim rest = true) :
    parseExpPart (serExp ep ++ rest) = (ep, rest) := by
  cases ep with
  | none =>
    simp only [serExp, List.nil_append]
    exact parseExpPart_skip rest (fun c hc => by
      have h := (numDelim_facts rest hd).2 c hc
      rintro (rfl | rfl)
      · exact h.2.1 rfl
      · exact h.2.2.1 rfl)
  | some e =>
    simp only [Bool.and_eq_true, Bool.not_eq_true'] at hexp
    exact parseExpPart_exp e rest (by simpa using hexp.1) hexp.2 hd

/-- The number parser reads back a wellformed serialised number literal
when followed by a delimiter. -/
theorem parseNum_serNum (n : JNum) (hwf : wfNum n = true) (rest : List Char)
    (hd : numDelim rest = true) :
    parseNum (serNum n ++ rest) = some (n, rest) := by
  obtain ⟨ng, ids, fds, ep⟩ := n
  simp only [wfNum, Bool.and_eq_true, Bool.not_eq_true', Bool.or_eq_true,
    decide_eq_true_eq] at hwf
  obtain ⟨⟨⟨⟨hne', hall⟩, hlz⟩, hfall⟩, hexp⟩ := hwf
  have hne : ids ≠ [] := by simpa using hne'
  have hmid : headNotDigit ((if fds.isEmpty then [] else '.' :: fds) ++
      (serExp ep ++ rest)) = true := by
    by_cases hf : fds.isEmpty
    · rw [if_pos hf, List.nil_append]
      exact headNotDigit_serExp_rest ep rest hd
    · rw [if_neg hf, List.cons_append]
      rfl
  have h1 := parseIntDigits_digits ids
    ((if fds.isEmpty then [] else '.' :: fds) ++ (serExp ep ++ rest)) hne hall hlz hmid
  have h2 := parseFrac_of_parts fds ep rest hfall hd
  have h3 := parseExpPart_of_parts ep rest hexp hd
  cases ids with
  | nil => exact absurd rfl hne
  | cons i itl =>
    have hdi : isDigitCh i = true := by
      simp only [List.all_cons, Bool.and_eq_true] at hall
      exact hall.1
    have hmi := digit_ne_marks i hdi
    simp only [List.cons_append] at h1
    simp only [List.isEmpty_iff] at h1 h2
    cases ng <;>
      simp [serNum, parseNum, h1, h2, h3, hmi.1, List.append_assoc, List.cons_append]

/-- Bracket characters are distinct from the other token starters
(stated as propositional equalities for use by `simp`). -/
theorem lbrace_ne_quote : (lbrace = '"') = False := eq_false (by decide)

/-- A left square bracket is not a left curly bracket. -/
theorem lsq_ne_lbrace : (('[' : Char) = lbrace) = False := eq_false (by decide)

/-- The letter `t` is not a left curly bracket. -/
theorem t_ne_lbrace : (('t' : Char) = lbrace) = False := eq_false (by decide)

/-- The letter `f` is not a left curly bracket. -/
theorem f_ne_lbrace : (('f' : Char) = lbrace) = False := eq_false (by decide)

/-- The letter `n` is not a left curly bracket. -/
theorem n_ne_lbrace : (('n' : Char) = lbrace) = False := eq_false (by decide)

/-- A minus sign is not a left curly bracket. -/
theorem dash_ne_lbrace : (('-' : Char) = lbrace) = False := eq_false (by decide)

/-- A quote is not a right curly bracket. -/
theorem quote_ne_rbrace : (('"' : Char) = rbrace) = False := eq_false (by decide)

/-- A left curly bracket is not a right square bracket. -/
theorem lbrace_ne_rsq : ((lbrace = ']') = False) := eq_false (by decide)

/-- A right curly bracket is not a comma. -/
theorem rbrace_ne_comma : ((rbrace = ',') = False) := eq_false (by decide)

/-- A digit starts none of the other JSON tokens. -/
theorem digit_ne_starts (c : Char) (h : isDigitCh c = true) :
    ((c = '"') = False) ∧ ((c = lbrace) = False) ∧ ((c = '[') = False) ∧
    ((c = 't') = False) ∧ ((c = 'f') = False) ∧ ((c = 'n') = False) ∧
    ((c = ']') = False) ∧ ((c = rbrace) = False) ∧ ((c = ',') = False) := by
  refine ⟨?_, ?_, ?_, ?_, ?_, ?_, ?_, ?_, ?_⟩ <;>
    exact eq_false (by rintro rfl; exact absurd h (by decide))

/-- Skipping whitespace leaves a non-whitespace-headed list alone. -/
theorem skipWs_cons_not (c : Char) (r : List Char) (h : isJsonWs c = false) :
    skipWs (c :: r) = c :: r := by
  simp [skipWs, List.dropWhile_cons, h]

/-- Skipping whitespace consumes a leading space. -/
theorem skipWs_space (r : List Char) : skipWs (' ' :: r) = skipWs r := by
  simp [skipWs, List.dropWhile_cons, isJsonWs]

/-- A serialised value never starts with whitespace. -/
theorem skipWs_serVal_append (v : JVal) (hwf : wfVal v = true) (r : List Char) :
    skipWs (serVal v ++ r) = serVal v ++ r := by
  cases v with
  | null => exact skipWs_cons_not _ _ (by decide)
  | bool b => cases b <;> exact skipWs_cons_not _ _ (by decide)
  | str s => exact skipWs_cons_not _ _ (by decide)
  | arr a => cases a <;> exact skipWs_cons_not _ _ (by decide)
  | obj o => cases o <;> exact skipWs_cons_not _ _ (by decide)
  | num nn =>
    simp only [wfVal, wfNum, Bool.and_eq_true, Bool.not_eq_true'] at hwf
    rcases hni : nn.intDigits with - | ⟨i, itl⟩
    · rw [hni] at hwf
      simp at hwf
    · have hdi : isDigitCh i = true := by
        have := hwf.1.1.1.2
        rw [hni] at this
        simp only [List.all_cons, Bool.and_eq_true] at this
        exact this.1
      rcases hn : nn.neg with - | -
      · simp only [serVal, serNum, hn, hni, if_neg, Bool.false_eq_true, if_false,
          List.nil_append, List.cons_append, List.append_assoc]
        exact skipWs_cons_not _ _ (isJsonWs_false_of_digit i hdi)
      · simp only [serVal, serNum, hn, if_pos, List.cons_append, List.append_assoc]
        exact skipWs_cons_not _ _ (by decide)

/-- A serialised array tail followed by the closing bracket starts with
a number delimiter. -/
theorem numDelim_serArrTl (tl : JArr) (rest : List Char) :
    numDelim (serArrTl tl ++ ']' :: rest) = true := by
  cases tl <;> simp [serArrTl, numDelim]

/-- A serialised object tail followed by the closing bracket starts with
a number delimiter. -/
theorem numDelim_serObjTl (tl : JObj) (rest : List Char) :
    numDelim (serObjTl tl ++ rbrace :: rest) = true := by
  cases tl <;> simp [serObjTl, numDelim]

/-- Appending the empty dict is the identity. -/
theorem JObj.append_nil : ∀ (o : JObj), o.append .nil = o
  | .nil => rfl
  | .cons k v tl => by
    simp only [JObj.append]
    rw [JObj.append_nil tl]

/-- Dict append is associative. -/
theorem JObj.append_assoc : ∀ (a b c : JObj),
    (a.append b).append c = a.append (b.append c)
  | .nil, _, _ => rfl
  | .cons k v tl, b, c => by
    simp only [JObj.append]
    rw [JObj.append_assoc tl b c]

/-- Inserting a fresh key appends a singleton. -/
theorem JObj.insert_fresh_append : ∀ (o : JObj) (k : String) (v : JVal),
    o.hasKey k = false → o.insert k v = o.append (.cons k v .nil)
  | .nil, k, v, _ => rfl
  | .cons k1 w tl, k, v, h => by
    simp only [JObj.hasKey, JObj.get?] at h
    by_cases h1 : k1 = k
    · simp [h1] at h
    · simp only [JObj.insert, if_neg h1, JObj.append]
      rw [JObj.insert_fresh_append tl k v (by simpa [JObj.hasKey, h1] using h)]

/-- Folding dict insertion over the pair view of a key-disjoint dict
appends it to the accumulator. -/
theorem foldl_insert_objToPairs : ∀ (o : JObj) (acc : JObj),
    (∀ k, o.hasKey k = true → acc.hasKey k = false) → wfObj o = true →
    List.foldl (fun acc p => acc.insert p.1 p.2) acc (objToPairs o) = acc.append o
  | .nil, acc, _, _ => by
    simp [objToPairs, JObj.append_nil]
  | .cons k v tl, acc, hdisj, hwf => by
    simp only [wfObj, Bool.and_eq_true, Bool.not_eq_true'] at hwf
    have hk : acc.hasKey k = false := hdisj k (by simp [JObj.hasKey, JObj.get?])
    simp only [objToPairs, List.foldl_cons]
    rw [foldl_insert_objToPairs tl (acc.insert k v) ?fresh hwf.2]
    · rw [JObj.insert_fresh_append acc k v hk, JObj.append_assoc]
      rfl
    · intro k2 hk2
      rw [JObj.hasKey_insert]
      have hne : ¬ k = k2 := by
        rintro rfl
        rw [hwf.1.2] at hk2
        cases hk2
      rw [if_neg hne]
      exact hdisj k2 (by simpa [JObj.hasKey, JObj.get?, hne] using hk2)

/-- Rebuilding a key-disjoint dict from its pair view is the identity. -/
theorem pairsToObj_objToPairs (o : JObj) (hwf : wfObj o = true) :
    pairsToObj (objToPairs o) = o := by
  have h := foldl_insert_objToPairs o .nil (fun _ _ => rfl) hwf
  simpa [pairsToObj] using h

/-- One token of fuel suffices to read back a serialised string value. -/
theorem parseVal_serStr (fuel : Nat) (s : String) (rest : List Char) :
    parseVal (fuel + 1) (serStr s ++ rest) = some (.str s, rest) := by
  have h := parseStrBody_escStr s.data rest
  simp only [serStr, List.cons_append, List.append_assoc, List.singleton_append]
  simp [parseVal, h]

/-- One token of fuel suffices to read back a serialised number value
followed by a delimiter. -/
theorem parseVal_serNum (fuel : Nat) (n : JNum) (hwf : wfNum n = true)
    (rest : List Char) (hd : numDelim rest = true) :
    parseVal (fuel + 1) (serNum n ++ rest) = some (.num n, rest) := by
  have h := parseNum_serNum n hwf rest hd
  simp only [wfNum, Bool.and_eq_true, Bool.not_eq_true'] at hwf
  rcases hni : n.intDigits with - | ⟨i, itl⟩
  · rw [hni] at hwf
    simp at hwf
  · have hdi : isDigitCh i = true := by
      have := hwf.1.1.1.2
      rw [hni] at this
      simp only [List.all_cons, Bool.and_eq_true] at this
      exact this.1
    rcases hn : n.neg with - | -
    · have hshape : serNum n ++ rest = i :: (itl ++
          ((if n.fracDigits.isEmpty then [] else '.' :: n.fracDigits) ++
            (serExp n.expPart ++ rest))) := by
        simp [serNum, hn, hni, List.append_assoc]
      have hst := digit_ne_starts i hdi
      rw [hshape]
      simp only [parseVal, hst.1, hst.2.1, hst.2.2.1, hst.2.2.2.1, hst.2.2.2.2.1,
        hst.2.2.2.2.2.1, if_false]
      rw [if_pos (show (decide (i = '-') || isDigitCh i) = true by simp [hdi]),
        ← hshape, h]
      rfl
    · have hshape : serNum n ++ rest = '-' :: (n.intDigits ++
          ((if n.fracDigits.isEmpty then [] else '.' :: n.fracDigits) ++
            (serExp n.expPart ++ rest))) := by
        simp [serNum, hn, List.append_assoc]
      rw [hshape]
      simp only [parseVal]
      rw [if_neg (by decide : ¬('-' : Char) = '"'),
        if_neg (show ¬('-' : Char) = lbrace by decide),
        if_neg (by decide : ¬('-' : Char) = '['),
        if_neg (by decide : ¬('-' : Char) = 't'),
        if_neg (by decide : ¬('-' : Char) = 'f'),
        if_neg (by decide : ¬('-' : Char) = 'n'),
        if_pos (show (decide True || isDigitCh '-') = true by decide),
        ← hshape, h]
      rfl

/-- Every wellformed serialised value starts with a non-whitespace
token character that is not a closing bracket. -/
theorem serVal_cons (v : JVal) (hwf : wfVal v = true) :
    ∃ c t, serVal v = c :: t ∧ isJsonWs c = false ∧ ¬ c = ']' ∧ ¬ c = rbrace := by
  cases v with
  | null => exact ⟨'n', _, rfl, rfl, by decide, by decide⟩
  | bool b => cases b with
    | false => refine ⟨'f', _, rfl, rfl, by decide, by decide⟩
    | true => refine ⟨'t', _, rfl, rfl, by decide, by decide⟩
  | str s => exact ⟨'"', _, rfl, rfl, by decide, by decide⟩
  | arr a => cases a with
    | nil => refine ⟨'[', _, rfl, rfl, by decide, by decide⟩
    | cons v tl => exact ⟨'[', _, rfl, rfl, by decide, by decide⟩
  | obj o => cases o with
    | nil => refine ⟨lbrace, _, rfl, rfl, by decide, by decide⟩
    | cons k v tl => exact ⟨lbrace, _, rfl, rfl, by decide, by decide⟩
  | num nn =>
    simp only [wfVal, wfNum, Bool.and_eq_true, Bool.not_eq_true'] at hwf
    rcases hni : nn.intDigits with - | ⟨i, itl⟩
    · rw [hni] at hwf
      simp at hwf
    · have hdi : isDigitCh i = true := by
        have := hwf.1.1.1.2
        rw [hni] at this
        simp only [List.all_cons, Bool.and_eq_true] at this
        exact this.1
      have hst := digit_ne_starts i hdi
      rcases hn : nn.neg with - | -
      · have hs : serVal (JVal.num nn) = i :: (itl ++
            ((if nn.fracDigits.isEmpty then [] else '.' :: nn.fracDigits) ++ serExp nn.expPart)) := by
          simp [serVal, serNum, hn, hni, List.append_assoc]
        exact ⟨i, _, hs, isJsonWs_false_of_digit i hdi,
          by simp [hst.2.2.2.2.2.2.1], by simp [hst.2.2.2.2.2.2.2.1]⟩
      · have hs : serVal (JVal.num nn) = '-' :: (nn.intDigits ++
            ((if nn.fracDigits.isEmpty then [] else '.' :: nn.fracDigits) ++ serExp nn.expPart)) := by
          simp [serVal, serNum, hn, List.append_assoc]
        exact ⟨'-', _, hs, by decide, by decide, by decide⟩

mutual

/-- Round trip: the parser reads back any wellformed serialised value
followed by a delimiter, given fuel beyond the serialisation length. -/
theorem parseVal_serVal : ∀ (v : JVal), wfVal v = true → ∀ (fuel : Nat) (rest : List Char),
    (serVal v).length < fuel → numDelim rest = true →
    parseVal fuel (serVal v ++ rest) = some (v, rest)
  | .null, _, fuel, rest, hfuel, _ => by
    cases fuel with
    | zero => simp at hfuel
    | succ f => simp [serVal, parseVal, n_ne_lbrace]
  | .bool true, _, fuel, rest, hfuel, _ => by
    cases fuel with
    | zero => simp at hfuel
    | succ f => simp [serVal, parseVal, t_ne_lbrace]
  | .bool false, _, fuel, rest, hfuel, _ => by
    cases fuel with
    | zero => simp at hfuel
    | succ f => simp [serVal, parseVal, f_ne_lbrace]
  | .num n, hwf, fuel, rest, hfuel, hd => by
    cases fuel with
    | zero => simp at hfuel
    | succ f => exact parseVal_serNum f n hwf rest hd
  | .str s, _, fuel, rest, hfuel, _ => by
    cases fuel with
    | zero => simp [serVal, serStr] at hfuel
    | succ f => exact parseVal_serStr f s rest
  | .arr .nil, _, fuel, rest, hfuel, _ => by
    cases fuel with
    | zero => simp at hfuel
    | succ f =>
      have hs := skipWs_cons_not ']' rest (by decide)
      simp [serVal, parseVal, lsq_ne_lbrace, hs]
  | .arr (.cons v tl), hwf, fuel, rest, hfuel, hd => by
    simp only [wfVal, wfArr, Bool.and_eq_true] at hwf
    cases fuel with
    | zero => simp at hfuel
    | succ f =>
      have hlen : (serVal (JVal.arr (.cons v tl))).length =
          2 + (serVal v).length + (serArrTl tl).length := by
        simp [serVal, List.length_append]
        omega
      have hv : (serVal v).length < f := by omega
      have htl : (serArrTl tl).length < f := by omega
      have ih1 := parseVal_serVal v hwf.1 f (serArrTl tl ++ ']' :: rest) hv
        (numDelim_serArrTl tl rest)
      have ih2 := parseArrRest_serArrTl tl hwf.2 f rest htl hd
      have hsk := skipWs_serVal_append v hwf.1 (serArrTl tl ++ ']' :: rest)
      obtain ⟨c0, t0, hserv, hnws, hc0r, hc0b⟩ := serVal_cons v hwf.1
      have hshape : serVal (JVal.arr (.cons v tl)) ++ rest =
          '[' :: (serVal v ++ (serArrTl tl ++ (']' :: rest))) := by
        simp [serVal, List.append_assoc]
      rw [hshape]
      rw [hserv] at ih1 hsk
      simp only [List.cons_append] at ih1 hsk
      simp [parseVal, lsq_ne_lbrace, hsk, hserv, hc0r, ih1, ih2, List.cons_append]
  | .obj .nil, _, fuel, rest, hfuel, _ => by
    cases fuel with
    | zero => simp at hfuel
    | succ f =>
      have hs := skipWs_cons_not rbrace rest (by decide)
      simp [serVal, parseVal, lbrace_ne_quote, hs]
  | .obj (.cons k v tl), hwf, fuel, rest, hfuel, hd => by
    have hwf' : wfObj (.cons k v tl) = true := hwf
    simp only [wfVal, wfObj, Bool.and_eq_true] at hwf
    cases fuel with
    | zero => simp at hfuel
    | succ f =>
      have hlen : (serVal (JVal.obj (.cons k v tl))).length =
          4 + (serStr k).length + (serVal v).length + (serObjTl tl).length := by
        simp [serVal, List.length_append]
        omega
      have hv : (serVal v).length < f := by omega
      have htl : (serObjTl tl).length < f := by omega
      have ih1 := parseVal_serVal v hwf.1.1 f (serObjTl tl ++ rbrace :: rest) hv
        (numDelim_serObjTl tl rest)
      have ih2 := parseObjRest_serObjTl tl hwf.2 f rest htl hd
      have hsk := skipWs_serVal_append v hwf.1.1 (serObjTl tl ++ rbrace :: rest)
      simp only [skipWs] at hsk
      have hstr := parseStrBody_escStr k.data
        (':' :: ' ' :: (serVal v ++ (serObjTl tl ++ (rbrace :: rest))))
      have hpairs := pairsToObj_objToPairs (JObj.cons k v tl) hwf'
      have hshape : serVal (JVal.obj (.cons k v tl)) ++ rest =
          lbrace :: ('"' :: (escStr k.data ++
            ('"' :: (':' :: ' ' :: (serVal v ++ (serObjTl tl ++ (rbrace :: rest))))))) := by
        simp [serVal, serStr, List.append_assoc]
      rw [hshape]
      simp [parseVal, lbrace_ne_quote, quote_ne_rbrace, hstr, skipWs, isJsonWs,
        List.dropWhile_cons, hsk, ih1, ih2, objToPairs]
      exact hpairs

/-- Round trip for the remaining items of a serialised array. -/
theorem parseArrRest_serArrTl : ∀ (a : JArr), wfArr a = true → ∀ (fuel : Nat) (rest : List Char),
    (serArrTl a).length < fuel → numDelim rest = true →
    parseArrRest fuel (serArrTl a ++ ']' :: rest) = some (a, rest)
  | .nil, _, fuel, rest, hfuel, _ => by
    cases fuel with
    | zero => simp at hfuel
    | succ f =>
      have hs := skipWs_cons_not ']' rest (by decide)
      simp [serArrTl, parseArrRest, hs]
  | .cons v tl, hwf, fuel, rest, hfuel, hd => by
    simp only [wfArr, Bool.and_eq_true] at hwf
    cases fuel with
    | zero => simp at hfuel
    | succ f =>
      have hlen : (serArrTl (JArr.cons v tl)).length =
          2 + (serVal v).length + (serArrTl tl).length := by
        simp [serArrTl, List.length_append]
        omega
      have hv : (serVal v).length < f := by omega
      have htl : (serArrTl tl).length < f := by omega
      have ih1 := parseVal_serVal v hwf.1 f (serArrTl tl ++ ']' :: rest) hv
        (numDelim_serArrTl tl rest)
      have ih2 := parseArrRest_serArrTl tl hwf.2 f rest htl hd
      have hsk := skipWs_serVal_append v hwf.1 (serArrTl tl ++ ']' :: rest)
      simp only [skipWs] at hsk
      have hshape : serArrTl (JArr.cons v tl) ++ ']' :: rest =
          ',' :: ' ' :: (serVal v ++ (serArrTl tl ++ (']' :: rest))) := by
        simp [serArrTl, List.append_assoc]
      rw [hshape]
      simp [parseArrRest, skipWs, isJsonWs, List.dropWhile_cons, hsk, ih1, ih2]

/-- Round trip for the remaining members of a serialised object. -/
theorem parseObjRest_serObjTl : ∀ (o : JObj), wfObj o = true → ∀ (fuel : Nat) (rest : List Char),
    (serObjTl o).length < fuel → numDelim rest = true →
    parseObjRest fuel (serObjTl o ++ rbrace :: rest) = some (objToPairs o, rest)
  | .nil, _, fuel, rest, hfuel, _ => by
    cases fuel with
    | zero => simp at hfuel
    | succ f =>
      have hs := skipWs_cons_not rbrace rest (by decide)
      simp [serObjTl, parseObjRest, objToPairs, rbrace_ne_comma, hs]
  | .cons k v tl, hwf, fuel, rest, hfuel, hd => by
    simp only [wfObj, Bool.and_eq_true] at hwf
    cases fuel with
    | zero => simp at hfuel
    | succ f =>
      have hlen : (serObjTl (JObj.cons k v tl)).length =
          4 + (serStr k).length + (serVal v).length + (serObjTl tl).length := by
        simp [serObjTl, serStr, List.length_append]
        omega
      have hv : (serVal v).length < f := by omega
      have htl : (serObjTl tl).length < f := by omega
      have ih1 := parseVal_serVal v hwf.1.1 f (serObjTl tl ++ rbrace :: rest) hv
        (numDelim_serObjTl tl rest)
      have ih2 := parseObjRest_serObjTl tl hwf.2 f rest htl hd
      have hsk := skipWs_serVal_append v hwf.1.1 (serObjTl tl ++ rbrace :: rest)
      simp only [skipWs] at hsk
      have hstr := parseStrBody_escStr k.data
        (':' :: ' ' :: (serVal v ++ (serObjTl tl ++ (rbrace :: rest))))
      have hshape : serObjTl (JObj.cons k v tl) ++ rbrace :: rest =
          ',' :: ' ' :: ('"' :: (escStr k.data ++
            ('"' :: (':' :: ' ' :: (serVal v ++ (serObjTl tl ++ (rbrace :: rest))))))) := by
        simp [serObjTl, serStr, List.append_assoc]
      rw [hshape]
      simp [parseObjRest, quote_ne_rbrace, hstr, skipWs, isJsonWs,
        List.dropWhile_cons, hsk, ih1, ih2, objToPairs]

end

/-- The digit run taken by `takeDigits` is all digits. -/
theorem takeDigits_all (s : List Char) : (takeDigits s).1.all isDigitCh = true := by
  simp [takeDigits, List.span_eq_take_drop, List.all_takeWhile]

/-- The integer part produced by the parser obeys the number grammar. -/
theorem parseIntDigits_wf (s : List Char) (ids r : List Char)
    (h : parseIntDigits s = some (ids, r)) :
    ids ≠ [] ∧ ids.all isDigitCh = true ∧ (ids = ['0'] ∨ ids.head? ≠ some '0') := by
  cases s with
  | nil => simp [parseIntDigits] at h
  | cons c t =>
    simp only [parseIntDigits] at h
    by_cases h0 : c = '0'
    · rw [if_pos h0] at h
      simp only [Option.some.injEq, Prod.mk.injEq] at h
      obtain ⟨rfl, rfl⟩ := h
      exact ⟨by simp, by simp [isDigitCh], Or.inl rfl⟩
    · rw [if_neg h0] at h
      by_cases hd : isDigitCh c = true
      · rw [if_pos hd] at h
        simp only [Option.some.injEq, Prod.mk.injEq] at h
        obtain ⟨rfl, rfl⟩ := h
        refine ⟨by simp, ?_, Or.inr (by simp [h0])⟩
        simp [List.all_cons, hd, takeDigits_all t]
      · rw [if_neg hd] at h
        cases h

/-- The fractional part produced by the parser is all digits. -/
theorem parseFrac_wf (s : List Char) : (parseFrac s).1.all isDigitCh = true := by
  cases s with
  | nil => simp [parseFrac]
  | cons c t =>
    simp only [parseFrac]
    by_cases h : c = '.'
    · rw [if_pos h]
      by_cases he : (takeDigits t).1.isEmpty
      · simp [he]
      · simp [he, takeDigits_all t]
    · rw [if_neg h]
      simp

/-- The exponent produced by the parser has nonempty digit content. -/
theorem parseExpPart_wf (s : List Char) :
    (match (parseExpPart s).1 with
      | none => true
      | some e => (!e.digits.isEmpty) && e.digits.all isDigitCh) = true := by
  cases s with
  | nil => simp [parseExpPart]
  | cons c t =>
    simp only [parseExpPart]
    by_cases h : c = 'e' ∨ c = 'E'
    · rw [if_pos h]
      rcases t with - | ⟨c2, t2⟩
      · simp [takeDigits, List.span_eq_take_drop]
      · by_cases h2 : c2 = '-'
        · simp only [if_pos h2]
          by_cases he : (takeDigits t2).1.isEmpty <;>
            simp [he, takeDigits_all t2]
        · simp only [if_neg h2]
          by_cases h3 : c2 = '+'
          · simp only [if_pos h3]
            by_cases he : (takeDigits t2).1.isEmpty <;>
              simp [he, takeDigits_all t2]
          · simp only [if_neg h3]
            by_cases he : (takeDigits (c2 :: t2)).1.isEmpty <;>
              simp [he, takeDigits_all (c2 :: t2)]
    · rw [if_neg h]

/-- Parsed numbers are wellformed literals. -/
theorem parseNum_wf (s : List Char) (n : JNum) (r : List Char)
    (h : parseNum s = some (n, r)) : wfNum n = true := by
  simp only [parseNum] at h
  rcases hid : parseIntDigits (match s with
    | c :: r => if c = '-' then (true, r) else (false, c :: r)
    | [] => (false, [])).2 with - | ⟨ids, r1⟩
  · rw [hid] at h
    cases h
  · rw [hid] at h
    simp only [Option.some.injEq, Prod.mk.injEq] at h
    obtain ⟨rfl, rfl⟩ := h
    have hi := parseIntDigits_wf _ _ _ hid
    simp only [wfNum, Bool.and_eq_true]
    refine ⟨⟨⟨⟨by simpa using hi.1, hi.2.1⟩, ?_⟩, parseFrac_wf _⟩, parseExpPart_wf _⟩
    rcases hi.2.2 with h | h <;> simp [h]

/-- Dict insertion preserves wellformedness. -/
theorem wfObj_insert : ∀ (o : JObj) (k : String) (v : JVal),
    wfObj o = true → wfVal v = true → wfObj (o.insert k v) = true
  | .nil, k, v, _, hv => by simp [JObj.insert, wfObj, JObj.hasKey, JObj.get?, hv]
  | .cons k1 w tl, k, v, ho, hv => by
    simp only [wfObj, Bool.and_eq_true] at ho
    by_cases h1 : k1 = k
    · simp only [JObj.insert, if_pos h1]
      simp only [wfObj, Bool.and_eq_true]
      exact ⟨⟨hv, ho.1.2⟩, ho.2⟩
    · simp only [JObj.insert, if_neg h1]
      simp only [wfObj, Bool.and_eq_true]
      refine ⟨⟨ho.1.1, ?_⟩, wfObj_insert tl k v ho.2 hv⟩
      rw [JObj.hasKey_insert, if_neg (fun hh => h1 hh.symm)]
      exact ho.1.2

/-- Folding insertion of wellformed values keeps the dict wellformed. -/
theorem pairsToObj_wf_aux : ∀ (l : List (String × JVal)) (acc : JObj),
    pairsWf l = true → wfObj acc = true →
    wfObj (List.foldl (fun acc p => acc.insert p.1 p.2) acc l) = true
  | [], _, _, ha => ha
  | (k, v) :: tl, acc, hl, ha => by
    simp only [pairsWf, Bool.and_eq_true] at hl
    exact pairsToObj_wf_aux tl (acc.insert k v) hl.2 (wfObj_insert acc k v ha hl.1)

/-- A dict built from wellformed pairs is wellformed. -/
theorem pairsToObj_wf (l : List (String × JVal)) (h : pairsWf l = true) :
    wfObj (pairsToObj l) = true :=
  pairsToObj_wf_aux l .nil h rfl

mutual

/-- Every value the parser produces is wellformed. -/
theorem parseVal_wf : ∀ (fuel : Nat) (s : List Char) (v : JVal) (r : List Char),
    parseVal fuel s = some (v, r) → wfVal v = true
  | 0, s, v, r => by
    intro h
    simp [parseVal] at h
  | fuel + 1, s, v, r => by
    intro h
    simp only [parseVal] at h
    repeat' split at h
    all_goals try cases h
    all_goals try rfl
    · simp only [Option.map_eq_some'] at h
      obtain ⟨p, -, hpe⟩ := h
      rw [Prod.ext_iff] at hpe
      have h1 : JVal.str ⟨p.1⟩ = v := hpe.1
      rw [← h1]
      rfl
    · have hwv := parseVal_wf fuel _ _ _ (by assumption)
      have hwp := parseObjRest_wf fuel _ _ _ (by assumption)
      simp only [wfVal]
      refine pairsToObj_wf _ ?_
      simp only [pairsWf, Bool.and_eq_true]
      exact ⟨hwv, hwp⟩
    · have hwv := parseVal_wf fuel _ _ _ (by assumption)
      have hwa := parseArrRest_wf fuel _ _ _ (by assumption)
      simp only [wfVal, wfArr, Bool.and_eq_true]
      exact ⟨hwv, hwa⟩
    · simp only [Option.map_eq_some'] at h
      obtain ⟨p, hp, hpe⟩ := h
      rw [Prod.ext_iff] at hpe
      have h1 : JVal.num p.1 = v := hpe.1
      rw [← h1]
      exact parseNum_wf _ _ _ hp

/-- Every array tail the parser produces is wellformed. -/
theorem parseArrRest_wf : ∀ (fuel : Nat) (s : List Char) (a : JArr) (r : List Char),
    parseArrRest fuel s = some (a, r) → wfArr a = true
  | 0, s, a, r => by
    intro h
    simp [parseArrRest] at h
  | fuel + 1, s, a, r => by
    intro h
    simp only [parseArrRest] at h
    repeat' split at h
    all_goals try cases h
    all_goals try rfl
    · have hwv := parseVal_wf fuel _ _ _ (by assumption)
      have hwa := parseArrRest_wf fuel _ _ _ (by assumption)
      simp only [wfArr, Bool.and_eq_true]
      exact ⟨hwv, hwa⟩

/-- Every member list the parser produces has wellformed values. -/
theorem parseObjRest_wf : ∀ (fuel : Nat) (s : List Char) (l : List (String × JVal)) (r : List Char),
    parseObjRest fuel s = some (l, r) → pairsWf l = true
  | 0, s, l, r => by
    intro h
    simp [parseObjRest] at h
  | fuel + 1, s, l, r => by
    intro h
    simp only [parseObjRest] at h
    repeat' split at h
    all_goals try cases h
    all_goals try rfl
    · have hwv := parseVal_wf fuel _ _ _ (by assumption)
      have hwp := parseObjRest_wf fuel _ _ _ (by assumption)
      simp only [pairsWf, Bool.and_eq_true]
      exact ⟨hwv, hwp⟩

end

/-- The serialisation of a dict value starts with a left brace. -/
theorem serVal_obj_head (m : JObj) : (serVal (JVal.obj m)).head? = some lbrace := by
  cases m <;> rfl

/-- The serialisation of a dict value ends with a right brace. -/
theorem serVal_obj_getLast (m : JObj) :
    (serVal (JVal.obj m)).getLast? = some rbrace := by
  cases m with
  | nil => rfl
  | cons k v tl =>
    have h : serVal (JVal.obj (.cons k v tl)) =
        (lbrace :: (serStr k ++ ':' :: ' ' :: (serVal v ++ serObjTl tl))) ++ [rbrace] := by
      simp [serVal, List.append_assoc]
    rw [h, List.getLast?_concat]

/-- Python strip is the identity when neither end is whitespace. -/
theorem pyStrip_noop (s : List Char)
    (h1 : ∀ c, s.head? = some c → pyIsSpace c = false)
    (h2 : ∀ c, s.getLast? = some c → pyIsSpace c = false) :
    pyStrip s = s := by
  have hd : s.dropWhile pyIsSpace = s := by
    cases s with
    | nil => rfl
    | cons c t =>
      rw [List.dropWhile_cons, if_neg]
      simp [h1 c rfl]
  have hr : s.reverse.dropWhile pyIsSpace = s.reverse := by
    cases hs : s.reverse with
    | nil => rfl
    | cons c t =>
      have hg : s.getLast? = some c := by
        rw [← List.head?_reverse, hs]
        rfl
      rw [List.dropWhile_cons, if_neg]
      simp [h2 c hg]
  unfold pyStrip
  rw [hd, List.rdropWhile, hr, List.reverse_reverse]

/-- Skipping JSON whitespace is the identity when the head is not
whitespace. -/
theorem skipWs_noop (s : List Char)
    (h : ∀ c, s.head? = some c → isJsonWs c = false) :
    skipWs s = s := by
  cases s with
  | nil => rfl
  | cons c t =>
    unfold skipWs
    rw [List.dropWhile_cons, if_neg]
    simp [h c rfl]

/-- On fence-free serialised dict output, extraction is the identity:
the text is already stripped and brace-delimited. -/
theorem extract_dumps_obj (m : JObj)
    (hf : fenceSearch (serVal (JVal.obj m)) = none) :
    extract_json_text (json_dumps (JVal.obj m)) = json_dumps (JVal.obj m) := by
  have hh := serVal_obj_head m
  have hl := serVal_obj_getLast m
  have hstrip : pyStrip (serVal (JVal.obj m)) = serVal (JVal.obj m) := by
    apply pyStrip_noop
    · intro c hc
      rw [hh] at hc
      cases hc
      decide
    · intro c hc
      rw [hl] at hc
      cases hc
      decide
  show (⟨extract_json_text_core (serVal (JVal.obj m))⟩ : String) = ⟨serVal (JVal.obj m)⟩
  unfold extract_json_text_core
  simp only [hstrip, hf]
  rw [if_pos ⟨hh, hl⟩, hstrip]

/-- Parsing the serialised form of a wellformed dict returns the dict
with nothing left over. -/
theorem try_parse_dumps_obj (m : JObj) (hwf : wfVal (JVal.obj m) = true) :
    try_parse_json (json_dumps (JVal.obj m)) = some (JVal.obj m) := by
  have hsk : skipWs (serVal (JVal.obj m)) = serVal (JVal.obj m) := by
    apply skipWs_noop
    intro c hc
    rw [serVal_obj_head m] at hc
    cases hc
    decide
  have hp : parseVal ((serVal (JVal.obj m)).length + 1) (serVal (JVal.obj m))
      = some (JVal.obj m, []) := by
    have h := parseVal_serVal (JVal.obj m) hwf ((serVal (JVal.obj m)).length + 1) []
      (by omega) (by rfl)
    rwa [List.append_nil] at h
  have h0 : try_parse_json (json_dumps (JVal.obj m)) =
      (match parseVal ((skipWs (serVal (JVal.obj m))).length + 1)
          (skipWs (serVal (JVal.obj m))) with
        | some (v, rest) => if skipWs rest = [] then some v else none
        | none => none) := rfl
  rw [h0, hsk, hp]
  rfl

/-- Claim C8 (amended): when the extracted text of the raw input parses
as a dict, `safe_load_validated` returns exactly that dict; and provided
the re-serialised JSON text contains no triple-backtick fence, feeding
the re-stringified dict back through `extract_json_text` and
`try_parse_json` reproduces the same dict.  The fence proviso is needed:
without it the round trip can fail (see the counterexample). -/
theorem safe_load_roundtrip (raw : String) (keys : List String) (m : JObj)
    (h : try_parse_json (extract_json_text raw) = some (JVal.obj m))
    (hf : fenceSearch (json_dumps (JVal.obj m)).data = none) :
    (safe_load_validated raw keys).1 = JVal.obj m ∧
    try_parse_json (extract_json_text (json_dumps (JVal.obj m))) = some (JVal.obj m) := by
  constructor
  · simp only [safe_load_validated, h]
  · have hwf : wfVal (JVal.obj m) = true := by
      simp only [try_parse_json] at h
      split at h
      · split at h
        · rw [Option.some.injEq] at h
          subst h
          exact parseVal_wf _ _ _ _ (by assumption)
        · cases h
      · cases h
    rw [extract_dumps_obj m hf]
    exact try_parse_dumps_obj m hwf

/-- Witness for `safe_load_roundtrip` on a one-field dict. -/
theorem safe_load_roundtrip_w :
    (safe_load_validated "\x7b\"a\": 1\x7d" ["a"]).1
        = JVal.obj (.cons "a" (.num (natNum 1)) .nil) ∧
    try_parse_json (extract_json_text (json_dumps
        (JVal.obj (.cons "a" (.num (natNum 1)) .nil))))
        = some (JVal.obj (.cons "a" (.num (natNum 1)) .nil)) :=
  safe_load_roundtrip "\x7b\"a\": 1\x7d" ["a"] (.cons "a" (.num (natNum 1)) .nil)
    (by decide) (by decide)

/-- Claim C8 counterexample: the raw text spells the backticks as
unicode-u escapes, so it contains no fence, parses as a dict, and
`safe_load_validated` succeeds with that dict; but `json.dumps` writes
the backticks literally, the fence pattern then matches the
re-serialised text with an empty captured group, and re-extraction +
parse yields `none` instead of reproducing the mapping. -/
theorem safe_load_roundtrip_cex :
    (safe_load_validated
        "\x7b\"a\": \"\\u0060\\u0060\\u0060\\u0060\\u0060\\u0060\"\x7d" []).1
      = JVal.obj tickObj ∧
    try_parse_json (extract_json_text (json_dumps (JVal.obj tickObj))) = none := by
  constructor
  · decide
  · decide
